import Mathlib

/-!
Verification of the HouseLeagueCoach lineup engine.

This file gives a shallow embedding of the core of the repository —
the data model (`src/types.ts`), the strict rotation lineup generator
(`src/utils/strictLineupGenerator.ts`) and the game state coordinator
(`src/utils/gameManager.ts`) — and proves or refutes the frozen claims
about it.

Modelling conventions:
- JavaScript numbers are modelled as `ℚ` (playing times, durations,
  balance scores) or `ℕ` (counts, indices, skill levels).  The claims
  under scrutiny are about exact arithmetic identities and orderings,
  not float rounding.
- A JS `Map<string, number>` is modelled as an insertion-ordered
  association list (`CountMap` below); `Map.get`/`Map.set` become
  `mget`/`mset` with the same first-match/update-in-place semantics.
- In-place mutation of an object found by `Array.prototype.find` is
  modelled by updating the first list element matching the predicate
  (`updateFirstPlayer` / `updateFirstPeriod`).
- `Array.prototype.sort` is stable (ES2019); it is modelled by a stable
  insertion sort (`stableSort`) driven by the boolean relation
  `le a b ↔ comparator a b ≤ 0`.  For the total preorder comparators
  used by the code, every stable sort produces the same output list.
-/

namespace HouseLeague

/-- Player positions (`src/types.ts`): `'Guard' | 'Forward' | 'Center' | 'Any'`. -/
inductive Position where
  | Guard
  | Forward
  | Center
  | Any
deriving DecidableEq

/-- `Player` from `src/types.ts`. -/
structure Player where
  id : String
  name : String
  jerseyNumber : Nat
  skillLevel : Nat
  position : Position
  isPresent : Bool
  totalPlayingTime : ℚ
deriving DecidableEq

/-- `GameSettings` from `src/types.ts`. -/
structure GameSettings where
  periodsCount : Nat
  periodDuration : ℚ
  overtimePeriods : Nat
  playersOnCourt : Nat
deriving DecidableEq

/-- `Period` from `src/types.ts`; `actualDuration` is optional until completion. -/
structure Period where
  id : String
  number : Nat
  lineup : List Player
  isCompleted : Bool
  actualDuration : Option ℚ
deriving DecidableEq

/-- `Game` from `src/types.ts` (the `teamId`/`date` fields carry no behaviour
and are omitted). -/
structure Game where
  id : String
  settings : GameSettings
  roster : List Player
  periods : List Period
  isActive : Bool
deriving DecidableEq

/-- `LineupSuggestion` from `src/types.ts`. -/
structure LineupSuggestion where
  players : List Player
  averageSkillLevel : ℚ
  playingTimeBalance : ℚ
  positionBalance : ℚ
deriving DecidableEq

/-- `Partial<GameSettings>` as used by `GameManager.updateGameSettings`. -/
structure PartialGameSettings where
  periodsCount : Option Nat
  periodDuration : Option ℚ
  overtimePeriods : Option Nat
  playersOnCourt : Option Nat
deriving DecidableEq

/-- One row of `GameManager.getPlayingTimeReport`. -/
structure ReportEntry where
  player : Player
  minutes : ℚ
  target : ℚ
  difference : ℚ
deriving DecidableEq

/-! ### Stable sorting (model of `Array.prototype.sort`) -/

/-- Insert `a` into `l` after every element `b` with `le b a` (so that, among
elements comparing equal, earlier-inserted ones stay first — the stability
guarantee of `Array.prototype.sort`). -/
def stableInsert (le : α → α → Bool) (a : α) : List α → List α
  | [] => [a]
  | b :: bs => if le b a then b :: stableInsert le a bs else a :: b :: bs

/-- Stable insertion sort: the model of `Array.prototype.sort` with a total
preorder comparator. -/
def stableSort (le : α → α → Bool) (l : List α) : List α :=
  l.foldl (fun acc a => stableInsert le a acc) []

/-! ### `Map<string, number>` model -/

/-- Insertion-ordered association list standing for a JS `Map<string, ℕ>`. -/
abbrev CountMap := List (String × Nat)

/-- `Map.get` (first entry with the key). -/
def mget (m : CountMap) (k : String) : Option Nat :=
  (m.find? (fun e => e.fst == k)).map (fun e => e.snd)

/-- `Map.get(k) || 0` — the defaulted lookup the generator uses everywhere. -/
def mgetD (m : CountMap) (k : String) : Nat :=
  (mget m k).getD 0

/-- `Map.set`: update the existing entry in place, else append. -/
def mset (m : CountMap) (k : String) (v : Nat) : CountMap :=
  match m with
  | [] => [(k, v)]
  | e :: es => if e.fst == k then (k, v) :: es else e :: mset es k v

/-! ### StrictLineupGenerator (`src/utils/strictLineupGenerator.ts`) -/

/-- The inner `forEach` of `calculatePeriodCounts`: bump the count of every
player appearing in a completed period's lineup. -/
def bumpLineup (m : CountMap) (lineup : List Player) : CountMap :=
  lineup.foldl (fun acc q => mset acc q.id (mgetD acc q.id + 1)) m

/-- `StrictLineupGenerator.calculatePeriodCounts`: initialise every (present)
player to 0 periods, then count actual appearances in completed periods. -/
def calculatePeriodCounts (players : List Player) (existingPeriods : List Period) : CountMap :=
  let initial := players.foldl (fun acc p => mset acc p.id 0) []
  existingPeriods.foldl
    (fun acc per => if per.isCompleted then bumpLineup acc per.lineup else acc) initial

/-- The sort comparator of `generateStrictRotationLineup` (fewer periods
first; on equal periods, higher skill first), as the boolean preorder
`comparator a b ≤ 0`. -/
def rotationLe (counts : CountMap) (a b : Player) : Bool :=
  let aCount := mgetD counts a.id
  let bCount := mgetD counts b.id
  if aCount = bCount then decide (b.skillLevel ≤ a.skillLevel) else decide (aCount < bCount)

/-- `Math.min` over `f x :: xs.map f`. -/
def minPeriodsOf (f : Player → Nat) (x : Player) (xs : List Player) : Nat :=
  (xs.map f).foldl min (f x)

/-- `StrictLineupGenerator.selectBestFromTied`: among tied players prefer a
not-yet-represented non-Any position, else the highest skill (the JS
`reduce` keeps the earlier player on skill ties). -/
def selectBestFromTied (hd : Player) (tl : List Player) (currentLineup : List Player) : Player :=
  let currentPositions := currentLineup.map (fun p => p.position)
  match (hd :: tl).find?
      (fun p => p.position != Position.Any && !(currentPositions.contains p.position)) with
  | some p => p
  | none => tl.foldl (fun best current =>
      if best.skillLevel < current.skillLevel then current else best) hd

/-- One lookup of the tied-minimum candidates.  The `[]` branch returns the
head of the availability list; it is unreachable (the minimum is always
attained), mirroring the fact that the JS code never hits it. -/
def selectFromMin (minPlayers : List Player) (lineup : List Player) (dflt : Player) : Player :=
  match minPlayers with
  | [] => dflt
  | [p] => p
  | p :: q :: rest => selectBestFromTied p (q :: rest) lineup

/-- The `while` loop of `generateStrictRotationLineup`: repeatedly pick a
candidate holding the minimum period count, remove it from the availability
list and append it to the lineup, until `playersOnCourt` players are chosen
or no candidate remains.  `fuel` is `playersOnCourt - lineup.length`. -/
def buildLineup (f : Player → Nat) : Nat → List Player → List Player → List Player
  | 0, lineup, _ => lineup
  | _ + 1, lineup, [] => lineup
  | fuel + 1, lineup, x :: xs =>
    let minPeriods := minPeriodsOf f x xs
    let minPlayers := (x :: xs).filter (fun p => f p == minPeriods)
    let selected := selectFromMin minPlayers lineup x
    buildLineup f fuel (lineup ++ [selected]) ((x :: xs).erase selected)

/-- `StrictLineupGenerator.generateStrictRotationLineup`. -/
def generateStrictRotationLineup (players : List Player) (settings : GameSettings)
    (periodCounts : CountMap) : List Player :=
  let sortedPlayers := stableSort (rotationLe periodCounts) players
  buildLineup (fun p => mgetD periodCounts p.id) settings.playersOnCourt [] sortedPlayers

/-- `StrictLineupGenerator.calculateRotationBalance`.  On an empty projected
map the JS `Math.min()`/`Math.max()` of no arguments yield infinities; that
degenerate branch is modelled as `0` and is exercised by no claim. -/
def calculateRotationBalance (periodCounts : CountMap) (proposedLineup : List Player) : ℚ :=
  let projectedCounts := bumpLineup periodCounts proposedLineup
  match projectedCounts.map (fun e => e.snd) with
  | [] => 0
  | v :: vs =>
    let minCount := vs.foldl min v
    let maxCount := vs.foldl max v
    max 0 (1 - ((maxCount : ℚ) - (minCount : ℚ)) * (33 / 100))

/-- The `Set(positions.filter(p => p !== 'Any')).size` of
`calculatePositionBalance`: the number of distinct non-Any positions. -/
def distinctNonAny (lineup : List Player) : Nat :=
  ((lineup.map (fun p => p.position)).filter (fun q => q != Position.Any)).dedup.length

/-- `calculatePositionBalance` (identical in `StrictLineupGenerator` and
`LineupGenerator`): distinct non-Any positions over `min 3 lineupSize`. -/
def calculatePositionBalance (lineup : List Player) : ℚ :=
  let uniquePositions := distinctNonAny lineup
  let maxPossiblePositions := min 3 lineup.length
  (uniquePositions : ℚ) / (maxPossiblePositions : ℚ)

/-- `StrictLineupGenerator.generateOptimalLineup` (the constructor has
already restricted `players` to the present ones, so the filter is applied
here). -/
def generateOptimalLineup (players : List Player) (settings : GameSettings)
    (existingPeriods : List Period) : LineupSuggestion :=
  let present := players.filter (fun p => p.isPresent)
  let periodCounts := calculatePeriodCounts present existingPeriods
  let lineup := generateStrictRotationLineup present settings periodCounts
  { players := lineup
    averageSkillLevel := ((lineup.map (fun p => p.skillLevel)).sum : ℚ) / (lineup.length : ℚ)
    playingTimeBalance := calculateRotationBalance periodCounts lineup
    positionBalance := calculatePositionBalance lineup }

/-! ### GameManager (`src/utils/gameManager.ts`) -/

/-- Mutate the first roster player matching `playerId` (the JS
`roster.find(...)` followed by an in-place field assignment). -/
def updateFirstPlayer (roster : List Player) (playerId : String) (f : Player → Player) :
    List Player :=
  match roster with
  | [] => []
  | p :: ps => if p.id == playerId then f p :: ps else p :: updateFirstPlayer ps playerId f

/-- Mutate the first period matching `periodId`. -/
def updateFirstPeriod (periods : List Period) (periodId : String) (f : Period → Period) :
    List Period :=
  match periods with
  | [] => []
  | per :: ps =>
    if per.id == periodId then f per :: ps else per :: updateFirstPeriod ps periodId f

/-- `GameManager.markPlayerPresent`. -/
def markPlayerPresent (g : Game) (playerId : String) (isPresent : Bool) : Game :=
  { g with roster := updateFirstPlayer g.roster playerId (fun p => { p with isPresent := isPresent }) }

/-- `GameManager.addLatePlayer` together with its helper
`calculateCatchUpTime`: mark present, then (if any period is completed)
assign `max 0 (0.7 * avgTimePerPeriod * completedPeriods)` as the starting
playing time, where the present count includes the player just marked. -/
def addLatePlayer (g : Game) (playerId : String) : Game :=
  match g.roster.find? (fun p => p.id == playerId) with
  | none => g
  | some _ =>
    let marked := updateFirstPlayer g.roster playerId (fun p => { p with isPresent := true })
    let completedPeriods := (g.periods.filter (fun per => per.isCompleted)).length
    if completedPeriods = 0 then { g with roster := marked }
    else
      let presentPlayers := (marked.filter (fun p => p.isPresent)).length
      let averageTimePerPeriod :=
        g.settings.periodDuration * (g.settings.playersOnCourt : ℚ) / (presentPlayers : ℚ)
      let expectedTime := averageTimePerPeriod * (completedPeriods : ℚ)
      let credited := updateFirstPlayer marked playerId
        (fun p => { p with totalPlayingTime := max 0 (expectedTime * (7 / 10)) })
      { g with roster := credited }

/-- `actualDuration || this.game.settings.periodDuration`: in JS, `0` (and
`undefined`) are falsy, so both an omitted and a zero duration fall back to
the settings default. -/
def resolveDuration (actualDuration : Option ℚ) (dflt : ℚ) : ℚ :=
  match actualDuration with
  | none => dflt
  | some d => if d = 0 then dflt else d

/-- The crediting `forEach` of `completePeriod`: for each lineup player, add
`d` to the playing time of the first roster player with the same id. -/
def creditLineup (roster : List Player) (lineup : List Player) (d : ℚ) : List Player :=
  lineup.foldl
    (fun acc q => updateFirstPlayer acc q.id
      (fun p => { p with totalPlayingTime := p.totalPlayingTime + d})) roster

/-- `GameManager.completePeriod`.  Note: the source has no
already-completed guard — if the period is found it is (re)marked completed
and its lineup is (re)credited. -/
def completePeriod (g : Game) (periodId : String) (actualDuration : Option ℚ) : Game :=
  match g.periods.find? (fun per => per.id == periodId) with
  | none => g
  | some period =>
    let d := resolveDuration actualDuration g.settings.periodDuration
    let newPeriods := updateFirstPeriod g.periods periodId
      (fun per => { per with isCompleted := true, actualDuration := some d })
    { g with periods := newPeriods, roster := creditLineup g.roster period.lineup d }

/-- `GameManager.swapPlayers`: returns the updated game and the boolean the
source returns. -/
def swapPlayers (g : Game) (periodId playerOutId playerInId : String) : Game × Bool :=
  match g.periods.find? (fun per => per.id == periodId) with
  | none => (g, false)
  | some period =>
    if period.isCompleted then (g, false)
    else
      match period.lineup.findIdx? (fun p => p.id == playerOutId),
          g.roster.find? (fun p => p.id == playerInId && p.isPresent) with
      | some playerOutIndex, some playerIn =>
        if period.lineup.any (fun p => p.id == playerInId) then (g, false)
        else
          let newPeriods := updateFirstPeriod g.periods periodId
            (fun per => { per with lineup := per.lineup.set playerOutIndex playerIn })
          ({ g with periods := newPeriods }, true)
      | _, _ => (g, false)

/-- `GameManager.getPlayingTimeReport`: one row per present player, sorted
ascending by `difference` (most under target first). -/
def getPlayingTimeReport (g : Game) : List ReportEntry :=
  let totalGameTime := (g.settings.periodsCount : ℚ) * g.settings.periodDuration
  let presentPlayers := (g.roster.filter (fun p => p.isPresent)).length
  let playersPerPeriod := g.settings.playersOnCourt
  let targetTimePerPlayer := totalGameTime * (playersPerPeriod : ℚ) / (presentPlayers : ℚ)
  stableSort (fun e1 e2 => decide (e1.difference ≤ e2.difference))
    ((g.roster.filter (fun p => p.isPresent)).map (fun player =>
      { player := player
        minutes := player.totalPlayingTime
        target := targetTimePerPlayer
        difference := player.totalPlayingTime - targetTimePerPlayer }))

/-- `GameManager.generateNextLineup`. -/
def generateNextLineup (g : Game) : LineupSuggestion :=
  generateOptimalLineup g.roster g.settings g.periods

/-- `GameManager.createPeriodFromSuggestion` (period ids are
`period-<number>`). -/
def createPeriodFromSuggestion (g : Game) (suggestion : LineupSuggestion) : Period :=
  { id := "period-" ++ toString (g.periods.length + 1)
    number := g.periods.length + 1
    lineup := suggestion.players
    isCompleted := false
    actualDuration := none }

/-- The coordinator flow that commits a generated suggestion as the next
period (`generateNextLineup` + `createPeriodFromSuggestion` + the caller
appending it to `game.periods`, as `App.handleStartPeriod` does). -/
def startGeneratedPeriod (g : Game) : Game :=
  { g with periods := g.periods ++ [createPeriodFromSuggestion g (generateNextLineup g)] }

/-- `GameManager.updateGameSettings` (`{ ...settings, ...newSettings }`). -/
def updateGameSettings (g : Game) (ns : PartialGameSettings) : Game :=
  { g with settings :=
    { periodsCount := ns.periodsCount.getD g.settings.periodsCount
      periodDuration := ns.periodDuration.getD g.settings.periodDuration
      overtimePeriods := ns.overtimePeriods.getD g.settings.overtimePeriods
      playersOnCourt := ns.playersOnCourt.getD g.settings.playersOnCourt } }

/-! ### Observation functions used by the claims -/

/-- Number of completed periods in `periods` whose lineup contains the
player with id `pid`. -/
def periodsPlayedBy (periods : List Period) (pid : String) : Nat :=
  (periods.filter (fun per => per.isCompleted && per.lineup.any (fun q => q.id == pid))).length

/-- Sum of `actualDuration` over the completed periods whose lineup contains
the player with id `pid`. -/
def timeSum (periods : List Period) (pid : String) : ℚ :=
  ((periods.filter (fun per => per.isCompleted && per.lineup.any (fun q => q.id == pid))).map
    (fun per => (per.actualDuration.getD 0))).sum

/-- Raw appearance count of id `pid` across completed periods (counting a
duplicated lineup entry once per occurrence) — the quantity the generator's
`calculatePeriodCounts` map actually holds. -/
def appearanceCount (periods : List Period) (pid : String) : Nat :=
  periods.foldl
    (fun acc per =>
      if per.isCompleted then acc + per.lineup.countP (fun q => q.id == pid) else acc) 0

/-! ### The coordinator's operations as a transition system (claim C5) -/

/-- One coordinator operation, restricted to the calls the amended invariant
claim is about: `completePeriod` is only applied to a period that is not yet
completed (the `PeriodAlreadyCompleted` guard the spec demands), and
`addLatePlayer` is only used while no period has been completed (otherwise
it assigns a catch-up credit that is not backed by any completed period). -/
inductive SafeStep : Game → Game → Prop
  | markPresent (g : Game) (playerId : String) (isPresent : Bool) :
      SafeStep g (markPlayerPresent g playerId isPresent)
  | addLate (g : Game) (playerId : String)
      (h : (g.periods.filter (fun per => per.isCompleted)).length = 0) :
      SafeStep g (addLatePlayer g playerId)
  | commitGenerated (g : Game) : SafeStep g (startGeneratedPeriod g)
  | complete (g : Game) (periodId : String) (d : Option ℚ) (P : Period)
      (hfind : g.periods.find? (fun per => per.id == periodId) = some P)
      (hnc : P.isCompleted = false) :
      SafeStep g (completePeriod g periodId d)
  | completeMissing (g : Game) (periodId : String) (d : Option ℚ)
      (h : g.periods.find? (fun per => per.id == periodId) = none) :
      SafeStep g (completePeriod g periodId d)
  | swap (g : Game) (periodId playerOutId playerInId : String) :
      SafeStep g (swapPlayers g periodId playerOutId playerInId).fst
  | settings (g : Game) (ns : PartialGameSettings) :
      SafeStep g (updateGameSettings g ns)

/-- Reflexive-transitive closure of `SafeStep`. -/
inductive ReachableSafe : Game → Game → Prop
  | refl (g : Game) : ReachableSafe g g
  | tail {g g' g'' : Game} : ReachableSafe g g' → SafeStep g' g'' → ReachableSafe g g''

/-- The inductive invariant behind claim C5: roster ids are distinct, every
period's lineup has distinct ids, and every roster player's accumulated
playing time is the sum of `actualDuration` over the completed periods they
appear in. -/
def GameInv (g : Game) : Prop :=
  (g.roster.map (fun p => p.id)).Nodup ∧
  (∀ per ∈ g.periods, (per.lineup.map (fun p => p.id)).Nodup) ∧
  (∀ p ∈ g.roster, p.totalPlayingTime = timeSum g.periods p.id)

/-! ### Concrete data for witnesses and counterexamples -/

/-- Build a player (the name mirrors the id; only the fields the claims
examine vary). -/
def mkPlayer (id : String) (jerseyNumber skillLevel : Nat) (position : Position)
    (isPresent : Bool) (totalPlayingTime : ℚ) : Player :=
  { id := id, name := id, jerseyNumber := jerseyNumber, skillLevel := skillLevel,
    position := position, isPresent := isPresent, totalPlayingTime := totalPlayingTime }

/-- The default settings of `App.tsx`. -/
def defaultSettings : GameSettings :=
  { periodsCount := 8, periodDuration := 4, overtimePeriods := 2, playersOnCourt := 5 }

def pOne : Player := mkPlayer "p1" 1 3 Position.Guard true 0

def periodOne : Period :=
  { id := "period-1", number := 1, lineup := [pOne], isCompleted := false,
    actualDuration := none }

/-- A game holding one not-yet-completed period whose lineup is `[pOne]`. -/
def gDouble : Game :=
  { id := "g1", settings := defaultSettings, roster := [pOne], periods := [periodOne],
    isActive := true }

/-- Three present players, `playersOnCourt = 5` (claim C3). -/
def gFew : Game :=
  { id := "g3", settings := defaultSettings,
    roster := [mkPlayer "a" 1 3 Position.Guard true 0,
               mkPlayer "b" 2 4 Position.Forward true 0,
               mkPlayer "c" 3 2 Position.Center true 0,
               mkPlayer "d" 4 5 Position.Any false 0],
    periods := [], isActive := true }

/-- A roster with no present players (claim C4). -/
def gAbsent : Game :=
  { id := "g4", settings := defaultSettings,
    roster := [mkPlayer "a" 1 3 Position.Guard false 6], periods := [], isActive := true }

/-- Initial game for the C5 counterexample: `A` present, `B` absent, one
player on court, 4-minute periods, no periods yet, all times zero. -/
def gLateInit : Game :=
  { id := "g5",
    settings := { periodsCount := 8, periodDuration := 4, overtimePeriods := 2,
                  playersOnCourt := 1 },
    roster := [mkPlayer "A" 1 3 Position.Guard true 0,
               mkPlayer "B" 2 4 Position.Forward false 0],
    periods := [], isActive := true }

/-- The C5 counterexample state: commit the generated period, complete it,
then add `B` as a late arrival. -/
def gLateFinal : Game :=
  addLatePlayer (completePeriod (startGeneratedPeriod gLateInit) "period-1" none) "B"

/-- Lineup `[A,B,C,D,E]` with present bench player `F` (claim C7). -/
def swapRoster : List Player :=
  [mkPlayer "A" 1 3 Position.Guard true 0,
   mkPlayer "B" 2 3 Position.Forward true 0,
   mkPlayer "C" 3 3 Position.Center true 0,
   mkPlayer "D" 4 3 Position.Guard true 0,
   mkPlayer "E" 5 3 Position.Forward true 0,
   mkPlayer "F" 6 3 Position.Center true 0]

def swapPeriod : Period :=
  { id := "period-1", number := 1, lineup := swapRoster.take 5, isCompleted := false,
    actualDuration := none }

def gSwap : Game :=
  { id := "g7", settings := defaultSettings, roster := swapRoster,
    periods := [swapPeriod], isActive := true }

/-- Three present players with playing times 4, 8 and 2 and time target 6
(claim C8): `2 * 3 * 3 / 3 = 6`. -/
def gReport : Game :=
  { id := "g8",
    settings := { periodsCount := 2, periodDuration := 3, overtimePeriods := 0,
                  playersOnCourt := 3 },
    roster := [mkPlayer "P1" 1 3 Position.Guard true 4,
               mkPlayer "P2" 2 3 Position.Forward true 8,
               mkPlayer "P3" 3 3 Position.Center true 2],
    periods := [], isActive := true }

/-- A game with one completed 4-minute period played by `A`, and absent
roster player `B` (claim C9). -/
def gLateArrival : Game :=
  { id := "g9",
    settings := { periodsCount := 8, periodDuration := 4, overtimePeriods := 2,
                  playersOnCourt := 1 },
    roster := [mkPlayer "A" 1 3 Position.Guard true 4,
               mkPlayer "B" 2 4 Position.Forward false 0],
    periods := [{ id := "period-1", number := 1,
                  lineup := [mkPlayer "A" 1 3 Position.Guard true 0],
                  isCompleted := true, actualDuration := some 4 }],
    isActive := true }

/-- Two present players where `q1` has already played one completed period
and `q2` none; one player on court (claim C2 witness). -/
def qOne : Player := mkPlayer "q1" 1 5 Position.Guard true 4

def qTwo : Player := mkPlayer "q2" 2 2 Position.Forward true 0

def gRotation : Game :=
  { id := "g2",
    settings := { periodsCount := 8, periodDuration := 4, overtimePeriods := 2,
                  playersOnCourt := 1 },
    roster := [qOne, qTwo],
    periods := [{ id := "period-1", number := 1, lineup := [qOne], isCompleted := true,
                  actualDuration := some 4 }],
    isActive := true }

/-- A three-player lineup covering Guard, Forward and Center (claim C6
witness). -/
def balancedLineup : List Player :=
  [mkPlayer "x" 1 3 Position.Guard true 0,
   mkPlayer "y" 2 3 Position.Forward true 0,
   mkPlayer "z" 3 3 Position.Center true 0]

/-! ## Lemmas -/

/-! ### Stable sort -/

theorem stableInsert_perm (le : α → α → Bool) (a : α) (l : List α) :
    (stableInsert le a l).Perm (a :: l) := by
  induction l with
  | nil => simp [stableInsert]
  | cons b bs ih =>
    by_cases h : le b a = true
    · simp only [stableInsert, h, if_true]
      exact (ih.cons b).trans (List.Perm.swap a b bs)
    · simp [stableInsert, h]

theorem stableSort_perm (le : α → α → Bool) (l : List α) : (stableSort le l).Perm l := by
  suffices h : ∀ acc : List α,
      (List.foldl (fun acc a => stableInsert le a acc) acc l).Perm (acc ++ l) by
    simpa [stableSort] using h []
  induction l with
  | nil => intro acc; simp
  | cons a as ih =>
    intro acc
    simp only [List.foldl_cons]
    refine (ih (stableInsert le a acc)).trans ?_
    refine (((stableInsert_perm le a acc).append_right as).trans ?_)
    exact List.perm_middle.symm

theorem pairwise_stableInsert (le : α → α → Bool)
    (htot : ∀ a b, le a b = true ∨ le b a = true)
    (htrans : ∀ a b c, le a b = true → le b c = true → le a c = true)
    (a : α) (l : List α) (h : l.Pairwise (fun x y => le x y = true)) :
    (stableInsert le a l).Pairwise (fun x y => le x y = true) := by
  induction l with
  | nil => simp [stableInsert]
  | cons b bs ih =>
    rcases List.pairwise_cons.mp h with ⟨hb, hbs⟩
    by_cases hba : le b a = true
    · simp only [stableInsert, hba, if_true]
      refine List.pairwise_cons.mpr ⟨?_, ih hbs⟩
      intro x hx
      have hx' : x ∈ a :: bs := (stableInsert_perm le a bs).mem_iff.mp hx
      rcases List.mem_cons.mp hx' with rfl | hxm
      · exact hba
      · exact hb x hxm
    · have hab : le a b = true := (htot a b).resolve_right hba
      simp only [stableInsert, hba, if_false]
      refine List.pairwise_cons.mpr ⟨?_, h⟩
      intro x hx
      rcases List.mem_cons.mp hx with rfl | hxm
      · exact hab
      · exact htrans a b x hab (hb x hxm)

theorem pairwise_stableSort (le : α → α → Bool)
    (htot : ∀ a b, le a b = true ∨ le b a = true)
    (htrans : ∀ a b c, le a b = true → le b c = true → le a c = true)
    (l : List α) : (stableSort le l).Pairwise (fun x y => le x y = true) := by
  suffices h : ∀ acc : List α, acc.Pairwise (fun x y => le x y = true) →
      (List.foldl (fun acc a => stableInsert le a acc) acc l).Pairwise
        (fun x y => le x y = true) by
    exact h [] (by simp)
  induction l with
  | nil => intro acc hacc; simpa using hacc
  | cons a as ih =>
    intro acc hacc
    simp only [List.foldl_cons]
    exact ih _ (pairwise_stableInsert le htot htrans a acc hacc)

/-! ### The CountMap model -/

theorem mget_mset_self (m : CountMap) (k : String) (v : Nat) :
    mget (mset m k v) k = some v := by
  induction m with
  | nil => simp [mget, mset]
  | cons e es ih =>
    by_cases h : e.fst = k
    · simp [mget, mset, h]
    · simp only [mset, beq_iff_eq, h, if_false]
      simpa [mget, List.find?_cons, h] using ih

theorem mget_mset_ne (m : CountMap) (k k' : String) (v : Nat) (h : k' ≠ k) :
    mget (mset m k v) k' = mget m k' := by
  have h1 : (k == k') = false := by simpa using Ne.symm h
  induction m with
  | nil => simp [mget, mset, List.find?_cons, h1]
  | cons e es ih =>
    by_cases he : e.fst = k
    · have h2 : (e.fst == k') = false := by simpa [he] using Ne.symm h
      simp [mset, he, mget, List.find?_cons, h1, h2]
    · have hm : mset (e :: es) k v = e :: mset es k v := by
        simp [mset, he]
      by_cases he' : e.fst = k'
      · rw [hm]
        simp [mget, List.find?_cons, he']
      · have h2 : (e.fst == k') = false := by simpa using he'
        rw [hm]
        simpa [mget, List.find?_cons, h2] using ih

theorem mgetD_mset_self (m : CountMap) (k : String) (v : Nat) :
    mgetD (mset m k v) k = v := by
  simp [mgetD, mget_mset_self]

theorem mgetD_mset_ne (m : CountMap) (k k' : String) (v : Nat) (h : k' ≠ k) :
    mgetD (mset m k v) k' = mgetD m k' := by
  simp [mgetD, mget_mset_ne m k k' v h]

theorem mgetD_bumpLineup (m : CountMap) (lineup : List Player) (k : String) :
    mgetD (bumpLineup m lineup) k = mgetD m k + lineup.countP (fun q => q.id == k) := by
  induction lineup generalizing m with
  | nil => simp [bumpLineup]
  | cons e es ih =>
    simp only [bumpLineup, List.foldl_cons] at ih ⊢
    rw [ih]
    by_cases h : k = e.id
    · subst h
      rw [mgetD_mset_self]
      simp [List.countP_cons]
      omega
    · rw [mgetD_mset_ne _ _ _ _ h]
      have : (e.id == k) = false := by simpa using Ne.symm h
      simp [List.countP_cons, this]

theorem mgetD_initial_zero (players : List Player) (k : String) :
    mgetD (players.foldl (fun acc p => mset acc p.id 0) []) k = 0 := by
  suffices h : ∀ m : CountMap, mgetD m k = 0 →
      mgetD (players.foldl (fun acc p => mset acc p.id 0) m) k = 0 by
    exact h [] (by simp [mgetD, mget])
  induction players with
  | nil => intro m hm; simpa using hm
  | cons p ps ih =>
    intro m hm
    simp only [List.foldl_cons]
    refine ih _ ?_
    by_cases h : k = p.id
    · subst h; simp [mgetD_mset_self]
    · rw [mgetD_mset_ne _ _ _ _ h]; exact hm

theorem mgetD_calculatePeriodCounts (players : List Player) (periods : List Period)
    (k : String) :
    mgetD (calculatePeriodCounts players periods) k = appearanceCount periods k := by
  suffices h : ∀ (m : CountMap) (n : Nat), mgetD m k = n →
      mgetD (periods.foldl
        (fun acc per => if per.isCompleted then bumpLineup acc per.lineup else acc) m) k =
      periods.foldl
        (fun acc per =>
          if per.isCompleted then acc + per.lineup.countP (fun q => q.id == k) else acc) n by
    exact h _ 0 (mgetD_initial_zero players k)
  induction periods with
  | nil => intro m n hm; simpa using hm
  | cons per ps ih =>
    intro m n hm
    simp only [List.foldl_cons]
    by_cases hc : per.isCompleted
    · simp only [hc, if_true]
      exact ih _ _ (by rw [mgetD_bumpLineup, hm])
    · simp only [hc, if_false]
      exact ih _ _ hm

theorem countP_id_eq_indicator {lineup : List Player} (k : String)
    (h : (lineup.map (fun p => p.id)).Nodup) :
    lineup.countP (fun q => q.id == k) =
      if lineup.any (fun q => q.id == k) then 1 else 0 := by
  have hcount : lineup.countP (fun q => q.id == k) =
      (lineup.map (fun p => p.id)).count k := by
    rw [List.count, List.countP_map]
    rfl
  by_cases hmem : k ∈ lineup.map (fun p => p.id)
  · have h1 : (lineup.map (fun p => p.id)).count k = 1 :=
      List.count_eq_one_of_mem h hmem
    have hany : lineup.any (fun q => q.id == k) = true := by
      rcases List.mem_map.mp hmem with ⟨q, hq, hqk⟩
      exact List.any_eq_true.mpr ⟨q, hq, by simp [hqk]⟩
    rw [hcount, h1, hany]
    simp
  · have h0 : (lineup.map (fun p => p.id)).count k = 0 :=
      List.count_eq_zero_of_not_mem hmem
    have hany : lineup.any (fun q => q.id == k) = false := by
      rw [Bool.eq_false_iff]
      intro hc
      rcases List.any_eq_true.mp hc with ⟨q, hq, hqk⟩
      exact hmem (List.mem_map.mpr ⟨q, hq, by simpa using hqk⟩)
    rw [hcount, h0, hany]
    simp

theorem appearanceCount_eq_periodsPlayedBy (periods : List Period) (k : String)
    (h : ∀ per ∈ periods, per.isCompleted = true → (per.lineup.map (fun p => p.id)).Nodup) :
    appearanceCount periods k = periodsPlayedBy periods k := by
  unfold appearanceCount periodsPlayedBy
  suffices hgen : ∀ n : Nat,
      periods.foldl
        (fun acc per =>
          if per.isCompleted then acc + per.lineup.countP (fun q => q.id == k) else acc) n =
      n + (periods.filter
        (fun per => per.isCompleted && per.lineup.any (fun q => q.id == k))).length by
    simpa using hgen 0
  induction periods with
  | nil => intro n; simp
  | cons per ps ih =>
    have hps : ∀ q ∈ ps, q.isCompleted = true → (q.lineup.map (fun p => p.id)).Nodup :=
      fun q hq => h q (List.mem_cons_of_mem per hq)
    have ih' := ih hps
    intro n
    by_cases hc : per.isCompleted = true
    · have hnd := h per (List.mem_cons_self per ps) hc
      have hcp := @countP_id_eq_indicator per.lineup k hnd
      by_cases hany : per.lineup.any (fun q => q.id == k) = true
      · have hone : per.lineup.countP (fun q => q.id == k) = 1 := by
          rw [hcp, hany]; simp
        simp only [List.foldl_cons, List.filter_cons, hc, hany, Bool.and_self, if_true,
          List.length_cons, hone]
        rw [ih' (n + 1)]
        omega
      · have hany' : per.lineup.any (fun q => q.id == k) = false := by
          simpa using hany
        have hzero : per.lineup.countP (fun q => q.id == k) = 0 := by
          rw [hcp, hany']; simp
        simp only [List.foldl_cons, List.filter_cons, hc, hany', Bool.and_false, if_true,
          if_false, hzero, Nat.add_zero]
        exact ih' n
    · have hc' : per.isCompleted = false := by simpa using hc
      simp only [List.foldl_cons, List.filter_cons, hc', Bool.false_and, if_false]
      exact ih' n

/-! ### The strict rotation loop -/

theorem foldl_min_le_init (l : List Nat) (a : Nat) : l.foldl min a ≤ a := by
  induction l generalizing a with
  | nil => simp
  | cons x xs ih =>
    simp only [List.foldl_cons]
    exact le_trans (ih (min a x)) (min_le_left a x)

theorem foldl_min_le_mem {l : List Nat} {x : Nat} (h : x ∈ l) (a : Nat) :
    l.foldl min a ≤ x := by
  induction l generalizing a with
  | nil => cases h
  | cons y ys ih =>
    simp only [List.foldl_cons]
    rcases List.mem_cons.mp h with rfl | hm
    · exact le_trans (foldl_min_le_init ys (min a x)) (min_le_right a x)
    · exact ih hm (min a y)

theorem foldl_min_attained (l : List Nat) (a : Nat) :
    l.foldl min a = a ∨ l.foldl min a ∈ l := by
  induction l generalizing a with
  | nil => left; rfl
  | cons x xs ih =>
    simp only [List.foldl_cons]
    rcases ih (min a x) with h | h
    · rcases Nat.le_total a x with hax | hxa
      · left; rw [h, min_eq_left hax]
      · right; rw [h, min_eq_right hxa]; exact List.mem_cons_self x xs
    · right; exact List.mem_cons_of_mem x h

theorem minPeriodsOf_le (f : Player → Nat) (x : Player) (xs : List Player) :
    ∀ y ∈ x :: xs, minPeriodsOf f x xs ≤ f y := by
  intro y hy
  rcases List.mem_cons.mp hy with rfl | hm
  · exact foldl_min_le_init _ _
  · exact foldl_min_le_mem (List.mem_map_of_mem f hm) (f x)

theorem minPeriodsOf_attained (f : Player → Nat) (x : Player) (xs : List Player) :
    ∃ y ∈ x :: xs, f y = minPeriodsOf f x xs := by
  rcases foldl_min_attained (xs.map f) (f x) with h | h
  · exact ⟨x, List.mem_cons_self x xs, by simpa [minPeriodsOf] using h.symm⟩
  · rcases List.mem_map.mp h with ⟨y, hy, hfy⟩
    exact ⟨y, List.mem_cons_of_mem x hy, by simp [minPeriodsOf, hfy]⟩

theorem foldl_skill_choice_mem (b : Player) (l : List Player) :
    l.foldl (fun best current =>
      if best.skillLevel < current.skillLevel then current else best) b ∈ b :: l := by
  induction l generalizing b with
  | nil => simp
  | cons c cs ih =>
    simp only [List.foldl_cons]
    by_cases hbc : b.skillLevel < c.skillLevel
    · rw [if_pos hbc]
      rcases List.mem_cons.mp (ih c) with h1 | h1
      · rw [h1]; exact List.mem_cons_of_mem b (List.mem_cons_self c cs)
      · exact List.mem_cons_of_mem b (List.mem_cons_of_mem c h1)
    · rw [if_neg hbc]
      rcases List.mem_cons.mp (ih b) with h1 | h1
      · rw [h1]; exact List.mem_cons_self b (c :: cs)
      · exact List.mem_cons_of_mem b (List.mem_cons_of_mem c h1)

theorem selectBestFromTied_mem (hd : Player) (tl lineup : List Player) :
    selectBestFromTied hd tl lineup ∈ hd :: tl := by
  unfold selectBestFromTied
  dsimp only
  split
  next p hfind => exact List.mem_of_find?_eq_some hfind
  next => exact foldl_skill_choice_mem hd tl

theorem selectFromMin_mem {minPlayers avail lineup : List Player} {dflt : Player}
    (hsub : ∀ p ∈ minPlayers, p ∈ avail) (hd : dflt ∈ avail) :
    selectFromMin minPlayers lineup dflt ∈ avail := by
  match minPlayers with
  | [] => exact hd
  | [p] => exact hsub p (List.mem_singleton_self p)
  | p :: q :: rest =>
    exact hsub _ (selectBestFromTied_mem p (q :: rest) lineup)

theorem selectFromMin_mem_of_ne_nil {minPlayers lineup : List Player} {dflt : Player}
    (h : minPlayers ≠ []) : selectFromMin minPlayers lineup dflt ∈ minPlayers := by
  match minPlayers with
  | [] => exact absurd rfl h
  | [p] => exact List.mem_singleton_self p
  | p :: q :: rest => exact selectBestFromTied_mem p (q :: rest) lineup

theorem buildLineup_zero (f : Player → Nat) (lineup avail : List Player) :
    buildLineup f 0 lineup avail = lineup := rfl

theorem buildLineup_nil (f : Player → Nat) (fuel : Nat) (lineup : List Player) :
    buildLineup f (fuel + 1) lineup [] = lineup := rfl

theorem buildLineup_cons (f : Player → Nat) (fuel : Nat) (lineup : List Player) (x : Player)
    (xs : List Player) :
    buildLineup f (fuel + 1) lineup (x :: xs) =
      buildLineup f fuel
        (lineup ++ [selectFromMin ((x :: xs).filter (fun p => f p == minPeriodsOf f x xs))
          lineup x])
        ((x :: xs).erase
          (selectFromMin ((x :: xs).filter (fun p => f p == minPeriodsOf f x xs)) lineup x)) :=
  rfl

theorem buildLineup_selected_mem (f : Player → Nat) (x : Player) (xs lineup : List Player) :
    selectFromMin ((x :: xs).filter (fun p => f p == minPeriodsOf f x xs)) lineup x
      ∈ x :: xs := by
  exact selectFromMin_mem (fun p hp => List.mem_of_mem_filter hp) (List.mem_cons_self x xs)

theorem buildLineup_prefix (f : Player → Nat) (fuel : Nat) (lineup avail : List Player) :
    ∃ rest, buildLineup f fuel lineup avail = lineup ++ rest := by
  induction fuel generalizing lineup avail with
  | zero => exact ⟨[], by simp [buildLineup_zero]⟩
  | succ fuel ih =>
    cases avail with
    | nil => exact ⟨[], by simp [buildLineup_nil]⟩
    | cons x xs =>
      rw [buildLineup_cons]
      rcases ih (lineup ++
          [selectFromMin ((x :: xs).filter (fun p => f p == minPeriodsOf f x xs)) lineup x])
        ((x :: xs).erase
          (selectFromMin ((x :: xs).filter (fun p => f p == minPeriodsOf f x xs)) lineup x))
        with ⟨r, hr⟩
      refine ⟨[selectFromMin ((x :: xs).filter (fun p => f p == minPeriodsOf f x xs)) lineup x]
        ++ r, ?_⟩
      rw [hr, List.append_assoc]

theorem buildLineup_perm_rest (f : Player → Nat) (fuel : Nat) (lineup avail : List Player) :
    ∃ rest, (buildLineup f fuel lineup avail ++ rest).Perm (lineup ++ avail) := by
  induction fuel generalizing lineup avail with
  | zero => exact ⟨avail, by simp [buildLineup_zero]⟩
  | succ fuel ih =>
    cases avail with
    | nil => exact ⟨[], by simp [buildLineup_nil]⟩
    | cons x xs =>
      rw [buildLineup_cons]
      have hsmem : selectFromMin ((x :: xs).filter (fun p => f p == minPeriodsOf f x xs))
          lineup x ∈ x :: xs := buildLineup_selected_mem f x xs lineup
      set s := selectFromMin ((x :: xs).filter (fun p => f p == minPeriodsOf f x xs)) lineup x
      rcases ih (lineup ++ [s]) ((x :: xs).erase s) with ⟨r, hr⟩
      refine ⟨r, hr.trans ?_⟩
      have h1 : (s :: (x :: xs).erase s).Perm (x :: xs) := (List.perm_cons_erase hsmem).symm
      have h2 : (lineup ++ [s]) ++ (x :: xs).erase s
          = lineup ++ (s :: (x :: xs).erase s) := by simp [List.append_assoc]
      rw [h2]
      exact List.Perm.append_left lineup h1

theorem buildLineup_consume_all (f : Player → Nat) (fuel : Nat) (lineup avail : List Player)
    (h : avail.length ≤ fuel) :
    (buildLineup f fuel lineup avail).Perm (lineup ++ avail) := by
  induction fuel generalizing lineup avail with
  | zero =>
    have hnil : avail = [] := List.length_eq_zero.mp (Nat.le_zero.mp h)
    subst hnil
    simp [buildLineup_zero]
  | succ fuel ih =>
    cases avail with
    | nil => simp [buildLineup_nil]
    | cons x xs =>
      rw [buildLineup_cons]
      have hsmem : selectFromMin ((x :: xs).filter (fun p => f p == minPeriodsOf f x xs))
          lineup x ∈ x :: xs := buildLineup_selected_mem f x xs lineup
      set s := selectFromMin ((x :: xs).filter (fun p => f p == minPeriodsOf f x xs)) lineup x
      have hlen : ((x :: xs).erase s).length ≤ fuel := by
        rw [List.length_erase_of_mem hsmem]
        simpa using Nat.le_of_succ_le_succ h
      refine (ih (lineup ++ [s]) _ hlen).trans ?_
      have h1 : (s :: (x :: xs).erase s).Perm (x :: xs) := (List.perm_cons_erase hsmem).symm
      have h2 : (lineup ++ [s]) ++ (x :: xs).erase s
          = lineup ++ (s :: (x :: xs).erase s) := by simp [List.append_assoc]
      rw [h2]
      exact List.Perm.append_left lineup h1

theorem buildLineup_min_mono (f : Player → Nat) (fuel : Nat) :
    ∀ (lineup avail : List Player) (a b : Player),
      a ∈ avail → a ∉ buildLineup f fuel lineup avail →
      b ∈ buildLineup f fuel lineup avail → b ∉ lineup →
      f b ≤ f a := by
  induction fuel with
  | zero =>
    intro lineup avail a b _ _ hb hnb
    exact absurd (by simpa [buildLineup_zero] using hb) hnb
  | succ fuel ih =>
    intro lineup avail a b ha hna hb hnb
    cases avail with
    | nil => exact absurd (by simpa [buildLineup_nil] using hb) hnb
    | cons x xs =>
      rw [buildLineup_cons] at hna hb
      have hmne : (x :: xs).filter (fun p => f p == minPeriodsOf f x xs) ≠ [] := by
        rcases minPeriodsOf_attained f x xs with ⟨y, hy, hfy⟩
        intro hnil
        have hymem : y ∈ (x :: xs).filter (fun p => f p == minPeriodsOf f x xs) :=
          List.mem_filter.mpr ⟨hy, by simp [hfy]⟩
        rw [hnil] at hymem
        cases hymem
      have hsmin : selectFromMin ((x :: xs).filter (fun p => f p == minPeriodsOf f x xs))
          lineup x ∈ (x :: xs).filter (fun p => f p == minPeriodsOf f x xs) :=
        selectFromMin_mem_of_ne_nil hmne
      set s := selectFromMin ((x :: xs).filter (fun p => f p == minPeriodsOf f x xs)) lineup x
      have hfs : f s = minPeriodsOf f x xs := by
        have hhh := (List.mem_filter.mp hsmin).2
        simpa using hhh
      have hsmem : s ∈ x :: xs := List.mem_of_mem_filter hsmin
      by_cases hbs : b = s
      · subst hbs
        rw [hfs]
        exact minPeriodsOf_le f x xs a ha
      · have has : a ≠ s := by
          intro haeq
          rcases buildLineup_prefix f fuel (lineup ++ [s]) ((x :: xs).erase s) with ⟨r, hr⟩
          apply hna
          rw [hr, haeq]
          simp
        have ha' : a ∈ (x :: xs).erase s := (List.mem_erase_of_ne has).mpr ha
        have hnb' : b ∉ lineup ++ [s] := by
          intro hmem
          rcases List.mem_append.mp hmem with h1 | h1
          · exact hnb h1
          · exact hbs (List.mem_singleton.mp h1)
        exact ih (lineup ++ [s]) ((x :: xs).erase s) a b ha' hna hb hnb'

/-! ### First-match updates and crediting -/

theorem mem_updateFirstPlayer {roster : List Player} {k : String} {f : Player → Player}
    {p' : Player} (h : p' ∈ updateFirstPlayer roster k f) :
    p' ∈ roster ∨ ∃ p ∈ roster, p' = f p := by
  induction roster with
  | nil => simp [updateFirstPlayer] at h
  | cons p ps ih =>
    by_cases hc : (p.id == k) = true
    · rw [updateFirstPlayer, if_pos hc] at h
      rcases List.mem_cons.mp h with rfl | hm
      · exact Or.inr ⟨p, List.mem_cons_self p ps, rfl⟩
      · exact Or.inl (List.mem_cons_of_mem p hm)
    · rw [updateFirstPlayer, if_neg hc] at h
      rcases List.mem_cons.mp h with rfl | hm
      · exact Or.inl (List.mem_cons_self p' ps)
      · rcases ih hm with h1 | ⟨q, hq, hq'⟩
        · exact Or.inl (List.mem_cons_of_mem p h1)
        · exact Or.inr ⟨q, List.mem_cons_of_mem p hq, hq'⟩

theorem updateFirstPlayer_map_id {f : Player → Player} (hid : ∀ p, (f p).id = p.id)
    (roster : List Player) (k : String) :
    (updateFirstPlayer roster k f).map (fun p => p.id) = roster.map (fun p => p.id) := by
  induction roster with
  | nil => rfl
  | cons p ps ih =>
    by_cases hc : (p.id == k) = true
    · rw [updateFirstPlayer, if_pos hc]
      simp [hid]
    · rw [updateFirstPlayer, if_neg hc]
      simp [ih]

theorem updateFirstPlayer_eq_map {f : Player → Player} (hid : ∀ p, (f p).id = p.id)
    {roster : List Player} (k : String) (h : (roster.map (fun p => p.id)).Nodup) :
    updateFirstPlayer roster k f = roster.map (fun p => if p.id = k then f p else p) := by
  induction roster with
  | nil => rfl
  | cons p ps ih =>
    rcases List.pairwise_cons.mp h with ⟨hhd, htl⟩
    by_cases hc : p.id = k
    · rw [updateFirstPlayer, if_pos (by simpa using hc)]
      simp only [List.map_cons, if_pos hc]
      congr 1
      have hnone : ∀ q ∈ ps, ¬(q.id = k) := by
        intro q hq hqk
        exact hhd q.id (List.mem_map_of_mem (fun r => r.id) hq)
          (show p.id = q.id by rw [hc, hqk])
      rw [show ps.map (fun q => if q.id = k then f q else q) = ps.map id from
        List.map_congr_left (fun (q : Player) (hq : q ∈ ps) => by
          rw [if_neg (hnone q hq)]; rfl)]
      simp
    · rw [updateFirstPlayer, if_neg (by simpa using hc)]
      simp only [List.map_cons, if_neg hc]
      congr 1
      exact ih htl

theorem creditLineup_cons (roster : List Player) (e : Player) (es : List Player) (d : ℚ) :
    creditLineup roster (e :: es) d =
      creditLineup (updateFirstPlayer roster e.id
        (fun p => { p with totalPlayingTime := p.totalPlayingTime + d })) es d := rfl

theorem creditLineup_eq_map (lineup : List Player) (d : ℚ) {roster : List Player}
    (h : (roster.map (fun p => p.id)).Nodup) :
    creditLineup roster lineup d = roster.map (fun p =>
      { p with totalPlayingTime := p.totalPlayingTime
          + d * ((lineup.countP (fun q => q.id == p.id) : Nat) : ℚ) }) := by
  induction lineup generalizing roster with
  | nil =>
    have : roster.map (fun p =>
        { p with totalPlayingTime := p.totalPlayingTime
            + d * ((List.countP (fun q => q.id == p.id) ([] : List Player) : Nat) : ℚ) })
        = roster.map id := by
      refine List.map_congr_left (fun p _ => ?_)
      simp
    rw [creditLineup]
    simp only [List.foldl_nil]
    rw [this, List.map_id]
  | cons e es ih =>
    rw [creditLineup_cons]
    have hid : ∀ p : Player,
        ((fun p : Player => { p with totalPlayingTime := p.totalPlayingTime + d }) p).id
          = p.id := fun _ => rfl
    have hupd := updateFirstPlayer_eq_map hid e.id h
    have hids : ((updateFirstPlayer roster e.id
        (fun p => { p with totalPlayingTime := p.totalPlayingTime + d })).map
          (fun p => p.id)) = roster.map (fun p => p.id) :=
      updateFirstPlayer_map_id hid roster e.id
    have hnd : ((updateFirstPlayer roster e.id
        (fun p => { p with totalPlayingTime := p.totalPlayingTime + d })).map
          (fun p => p.id)).Nodup := by rw [hids]; exact h
    rw [ih hnd, hupd, List.map_map]
    refine List.map_congr_left (fun p _ => ?_)
    by_cases hpe : p.id = e.id
    · have hcnt : List.countP (fun q => q.id == p.id) (e :: es)
          = List.countP (fun q => q.id == p.id) es + 1 := by
        rw [List.countP_cons]
        simp [hpe]
      simp only [Function.comp_apply, if_pos hpe, hcnt]
      cases p with
      | mk id name jersey skill pos pres t =>
        simp only [Player.mk.injEq, and_true, true_and]
        push_cast
        ring
    · have hcnt : List.countP (fun q => q.id == p.id) (e :: es)
          = List.countP (fun q => q.id == p.id) es := by
        rw [List.countP_cons]
        have : (e.id == p.id) = false := by
          simpa using fun hh => hpe (by rw [hh])
        simp [this]
      simp only [Function.comp_apply, if_neg hpe, hcnt]

/-! ### Periods: first-match updates and time sums -/

theorem mem_updateFirstPeriod {periods : List Period} {periodId : String} {f : Period → Period}
    {per' : Period} (h : per' ∈ updateFirstPeriod periods periodId f) :
    per' ∈ periods ∨ ∃ per ∈ periods, per' = f per := by
  induction periods with
  | nil => simp [updateFirstPeriod] at h
  | cons per ps ih =>
    by_cases hc : (per.id == periodId) = true
    · rw [updateFirstPeriod, if_pos hc] at h
      rcases List.mem_cons.mp h with rfl | hm
      · exact Or.inr ⟨per, List.mem_cons_self per ps, rfl⟩
      · exact Or.inl (List.mem_cons_of_mem per hm)
    · rw [updateFirstPeriod, if_neg hc] at h
      rcases List.mem_cons.mp h with rfl | hm
      · exact Or.inl (List.mem_cons_self per' ps)
      · rcases ih hm with h1 | ⟨q, hq, hq'⟩
        · exact Or.inl (List.mem_cons_of_mem per h1)
        · exact Or.inr ⟨q, List.mem_cons_of_mem per hq, hq'⟩

theorem timeSum_cons (q : Period) (ps : List Period) (pid : String) :
    timeSum (q :: ps) pid =
      (if (q.isCompleted && q.lineup.any (fun r => r.id == pid)) = true
        then q.actualDuration.getD 0 else 0) + timeSum ps pid := by
  by_cases hc : (q.isCompleted && q.lineup.any (fun r => r.id == pid)) = true
  · simp [timeSum, List.filter_cons, hc]
  · simp [timeSum, List.filter_cons, hc]

theorem timeSum_append (l1 l2 : List Period) (pid : String) :
    timeSum (l1 ++ l2) pid = timeSum l1 pid + timeSum l2 pid := by
  simp [timeSum, List.filter_append]

theorem timeSum_single_incomplete {per : Period} (h : per.isCompleted = false) (pid : String) :
    timeSum [per] pid = 0 := by
  simp [timeSum, List.filter_cons, h]

theorem timeSum_updateFirstPeriod_complete {periods : List Period} {periodId : String}
    {P : Period} (d : ℚ)
    (hfind : periods.find? (fun per => per.id == periodId) = some P)
    (hnc : P.isCompleted = false) (pid : String) :
    timeSum (updateFirstPeriod periods periodId
      (fun per => { per with isCompleted := true, actualDuration := some d })) pid =
      timeSum periods pid + (if P.lineup.any (fun q => q.id == pid) = true then d else 0) := by
  induction periods with
  | nil => simp at hfind
  | cons per ps ih =>
    by_cases hc : (per.id == periodId) = true
    · have hP : per = P := by
        rw [@List.find?_cons_of_pos Period (fun per => per.id == periodId) per ps hc] at hfind
        exact Option.some.inj hfind
      subst hP
      rw [updateFirstPeriod, if_pos hc, timeSum_cons, timeSum_cons]
      have h0 : (per.isCompleted && per.lineup.any (fun r => r.id == pid)) = false := by
        simp [hnc]
      rw [h0]
      by_cases hany : per.lineup.any (fun r => r.id == pid) = true
      · simp [hany]
        ring
      · have hany' : per.lineup.any (fun r => r.id == pid) = false := by simpa using hany
        simp [hany']
    · rw [@List.find?_cons_of_neg Period (fun per => per.id == periodId) per ps hc] at hfind
      rw [updateFirstPeriod, if_neg hc, timeSum_cons, timeSum_cons, ih hfind]
      ring

theorem timeSum_updateFirstPeriod_incomplete {periods : List Period} {periodId : String}
    {P : Period} (f : Period → Period)
    (hfind : periods.find? (fun per => per.id == periodId) = some P)
    (hnc : P.isCompleted = false) (hf : (f P).isCompleted = false) (pid : String) :
    timeSum (updateFirstPeriod periods periodId f) pid = timeSum periods pid := by
  induction periods with
  | nil => simp at hfind
  | cons per ps ih =>
    by_cases hc : (per.id == periodId) = true
    · have hP : per = P := by
        rw [@List.find?_cons_of_pos Period (fun per => per.id == periodId) per ps hc] at hfind
        exact Option.some.inj hfind
      subst hP
      rw [updateFirstPeriod, if_pos hc, timeSum_cons, timeSum_cons]
      simp [hnc, hf]
    · rw [@List.find?_cons_of_neg Period (fun per => per.id == periodId) per ps hc] at hfind
      rw [updateFirstPeriod, if_neg hc, timeSum_cons, timeSum_cons, ih hfind]

/-! ### Nodup helpers -/

theorem map_set_comm (f : α → β) (l : List α) (i : Nat) (a : α) :
    (l.set i a).map f = (l.map f).set i (f a) := by
  induction l generalizing i with
  | nil => simp
  | cons x xs ih =>
    cases i with
    | zero => simp
    | succ i => simp [List.set_cons_succ, ih]

theorem nodup_set_of_not_mem {l : List α} {i : Nat} {a : α}
    (h : l.Nodup) (ha : a ∉ l) : (l.set i a).Nodup := by
  induction l generalizing i with
  | nil => simp
  | cons x xs ih =>
    rcases List.pairwise_cons.mp h with ⟨hx, hxs⟩
    cases i with
    | zero =>
      simp only [List.set_cons_zero]
      refine List.pairwise_cons.mpr ⟨?_, hxs⟩
      intro b hb hab
      exact ha (by rw [hab]; exact List.mem_cons_of_mem x hb)
    | succ i =>
      simp only [List.set_cons_succ]
      refine List.pairwise_cons.mpr ⟨?_, ih hxs (fun hm => ha (List.mem_cons_of_mem x hm))⟩
      intro b hb hxb
      rcases List.mem_or_eq_of_mem_set hb with hmem | rfl
      · exact hx b hmem hxb
      · subst hxb
        exact ha (List.mem_cons_self _ _)

/-! ### Equation lemmas for the coordinator operations -/

theorem completePeriod_eq_of_find {g : Game} {periodId : String} {darg : Option ℚ} {P : Period}
    (hfind : g.periods.find? (fun per => per.id == periodId) = some P) :
    completePeriod g periodId darg =
      { g with periods := updateFirstPeriod g.periods periodId (fun per => { per with isCompleted := true, actualDuration := some (resolveDuration darg g.settings.periodDuration) }), roster := creditLineup g.roster P.lineup (resolveDuration darg g.settings.periodDuration) } := by
  unfold completePeriod
  rw [hfind]

theorem completePeriod_eq_of_none {g : Game} {periodId : String} {darg : Option ℚ}
    (hfind : g.periods.find? (fun per => per.id == periodId) = none) :
    completePeriod g periodId darg = g := by
  unfold completePeriod
  rw [hfind]

theorem addLatePlayer_eq_of_none {g : Game} {pid : String}
    (hfind : g.roster.find? (fun p => p.id == pid) = none) :
    addLatePlayer g pid = g := by
  unfold addLatePlayer
  rw [hfind]

theorem addLatePlayer_eq_of_zero {g : Game} {pid : String} {p : Player}
    (hfind : g.roster.find? (fun p => p.id == pid) = some p)
    (h0 : (g.periods.filter (fun per => per.isCompleted)).length = 0) :
    addLatePlayer g pid =
      { g with roster := updateFirstPlayer g.roster pid (fun q => { q with isPresent := true }) } := by
  unfold addLatePlayer
  rw [hfind]
  simp only [h0, if_pos]

theorem addLatePlayer_eq_of_completed {g : Game} {pid : String} {p : Player}
    (hfind : g.roster.find? (fun p => p.id == pid) = some p)
    (h0 : (g.periods.filter (fun per => per.isCompleted)).length ≠ 0) :
    addLatePlayer g pid =
      { g with roster := updateFirstPlayer (updateFirstPlayer g.roster pid (fun q => { q with isPresent := true })) pid (fun q => { q with totalPlayingTime := max 0 (g.settings.periodDuration * (g.settings.playersOnCourt : ℚ) / (((updateFirstPlayer g.roster pid (fun r => { r with isPresent := true })).filter (fun r => r.isPresent)).length : ℚ) * (((g.periods.filter (fun per => per.isCompleted)).length : Nat) : ℚ) * (7 / 10)) }) } := by
  unfold addLatePlayer
  rw [hfind]
  simp only [h0, if_neg, if_false]

/-! ### The generated lineup has distinct ids -/

theorem generateStrictRotationLineup_ids_nodup (players : List Player)
    (settings : GameSettings) (counts : CountMap)
    (h : (players.map (fun p => p.id)).Nodup) :
    ((generateStrictRotationLineup players settings counts).map (fun p => p.id)).Nodup := by
  unfold generateStrictRotationLineup
  rcases buildLineup_perm_rest (fun p => mgetD counts p.id) settings.playersOnCourt []
    (stableSort (rotationLe counts) players) with ⟨rest, hperm⟩
  have hsortperm : (stableSort (rotationLe counts) players).Perm players :=
    stableSort_perm _ _
  have hp2 : ((buildLineup (fun p => mgetD counts p.id) settings.playersOnCourt []
      (stableSort (rotationLe counts) players)) ++ rest).Perm players := by
    refine hperm.trans ?_
    simpa using hsortperm
  have hids := hp2.map (fun p => p.id)
  have hnd : (((buildLineup (fun p => mgetD counts p.id) settings.playersOnCourt []
      (stableSort (rotationLe counts) players)) ++ rest).map (fun p => p.id)).Nodup :=
    hids.nodup_iff.mpr h
  refine hnd.sublist ?_
  rw [List.map_append]
  exact List.sublist_append_left _ _

theorem generateOptimalLineup_players (players : List Player) (settings : GameSettings)
    (existingPeriods : List Period) :
    (generateOptimalLineup players settings existingPeriods).players =
      generateStrictRotationLineup (players.filter (fun p => p.isPresent)) settings
        (calculatePeriodCounts (players.filter (fun p => p.isPresent)) existingPeriods) := rfl

theorem generateOptimalLineup_ids_nodup (players : List Player) (settings : GameSettings)
    (existingPeriods : List Period) (h : (players.map (fun p => p.id)).Nodup) :
    (((generateOptimalLineup players settings existingPeriods).players).map
      (fun p => p.id)).Nodup := by
  rw [generateOptimalLineup_players]
  refine generateStrictRotationLineup_ids_nodup _ settings _ ?_
  exact h.sublist ((players.filter_sublist).map (fun p => p.id))

/-! ### Case analysis of `swapPlayers` -/

theorem swapPlayers_elim (g : Game) (periodId outId inId : String) :
    ((swapPlayers g periodId outId inId).fst = g ∧
      (swapPlayers g periodId outId inId).snd = false) ∨
    (∃ P i q, g.periods.find? (fun per => per.id == periodId) = some P ∧
      P.isCompleted = false ∧
      P.lineup.findIdx? (fun p => p.id == outId) = some i ∧
      g.roster.find? (fun p => p.id == inId && p.isPresent) = some q ∧
      P.lineup.any (fun p => p.id == inId) = false ∧
      swapPlayers g periodId outId inId =
        ({ g with periods := updateFirstPeriod g.periods periodId (fun per => { per with lineup := per.lineup.set i q }) }, true)) := by
  unfold swapPlayers
  split
  next hfind => exact Or.inl ⟨rfl, rfl⟩
  next P hfind =>
    split
    next hc => exact Or.inl ⟨rfl, rfl⟩
    next hc =>
      split
      next i q hidx hin =>
        split
        next hany => exact Or.inl ⟨rfl, rfl⟩
        next hany =>
          exact Or.inr ⟨P, i, q, hfind, by simpa using hc, hidx, hin, by simpa using hany,
            rfl⟩
      next => exact Or.inl ⟨rfl, rfl⟩

theorem mem_updateFirstPeriod_find {periods : List Period} {periodId : String}
    {f : Period → Period} {per' P : Period}
    (hfind : periods.find? (fun per => per.id == periodId) = some P)
    (h : per' ∈ updateFirstPeriod periods periodId f) :
    per' ∈ periods ∨ per' = f P := by
  induction periods with
  | nil => simp at hfind
  | cons per ps ih =>
    by_cases hc : (per.id == periodId) = true
    · have hP : per = P := by
        rw [@List.find?_cons_of_pos Period (fun per => per.id == periodId) per ps hc] at hfind
        exact Option.some.inj hfind
      subst hP
      rw [updateFirstPeriod, if_pos hc] at h
      rcases List.mem_cons.mp h with rfl | hm
      · exact Or.inr rfl
      · exact Or.inl (List.mem_cons_of_mem per hm)
    · rw [@List.find?_cons_of_neg Period (fun per => per.id == periodId) per ps hc] at hfind
      rw [updateFirstPeriod, if_neg hc] at h
      rcases List.mem_cons.mp h with rfl | hm
      · exact Or.inl (List.mem_cons_self per' ps)
      · rcases ih hfind hm with h1 | h1
        · exact Or.inl (List.mem_cons_of_mem per h1)
        · exact Or.inr h1

/-! ### Preservation of the playing-time invariant -/

theorem gameInv_roster_update {g : Game} (pid : String) (f : Player → Player)
    (hid : ∀ p, (f p).id = p.id) (ht : ∀ p, (f p).totalPlayingTime = p.totalPlayingTime)
    (h : GameInv g) : GameInv { g with roster := updateFirstPlayer g.roster pid f } := by
  obtain ⟨h1, h2, h3⟩ := h
  refine ⟨?_, h2, ?_⟩
  · show ((updateFirstPlayer g.roster pid f).map (fun p => p.id)).Nodup
    rw [updateFirstPlayer_map_id hid]
    exact h1
  · intro p' hp'
    rcases mem_updateFirstPlayer hp' with hm | ⟨p, hp, rfl⟩
    · exact h3 p' hm
    · show (f p).totalPlayingTime = timeSum g.periods (f p).id
      rw [ht p, hid p]
      exact h3 p hp

theorem gameInv_markPresent (g : Game) (pid : String) (b : Bool) (h : GameInv g) :
    GameInv (markPlayerPresent g pid b) :=
  gameInv_roster_update pid _ (fun _ => rfl) (fun _ => rfl) h

theorem gameInv_addLate (g : Game) (pid : String)
    (h0 : (g.periods.filter (fun per => per.isCompleted)).length = 0)
    (h : GameInv g) : GameInv (addLatePlayer g pid) := by
  cases hfind : g.roster.find? (fun p => p.id == pid) with
  | none => rw [addLatePlayer_eq_of_none hfind]; exact h
  | some p =>
    rw [addLatePlayer_eq_of_zero hfind h0]
    exact gameInv_roster_update pid _ (fun _ => rfl) (fun _ => rfl) h

theorem gameInv_commit (g : Game) (h : GameInv g) : GameInv (startGeneratedPeriod g) := by
  obtain ⟨h1, h2, h3⟩ := h
  refine ⟨h1, ?_, ?_⟩
  · intro per hper
    rcases List.mem_append.mp hper with hm | hm
    · exact h2 per hm
    · have hper' : per = createPeriodFromSuggestion g (generateNextLineup g) := by
        simpa using hm
      subst hper'
      exact generateOptimalLineup_ids_nodup g.roster g.settings g.periods h1
  · intro p hp
    show p.totalPlayingTime
      = timeSum (g.periods ++ [createPeriodFromSuggestion g (generateNextLineup g)]) p.id
    rw [timeSum_append, timeSum_single_incomplete rfl, add_zero]
    exact h3 p hp

theorem gameInv_complete (g : Game) (periodId : String) (darg : Option ℚ) (P : Period)
    (hfind : g.periods.find? (fun per => per.id == periodId) = some P)
    (hnc : P.isCompleted = false) (h : GameInv g) :
    GameInv (completePeriod g periodId darg) := by
  obtain ⟨h1, h2, h3⟩ := h
  have hPmem : P ∈ g.periods := List.mem_of_find?_eq_some hfind
  have hPnd : (P.lineup.map (fun p => p.id)).Nodup := h2 P hPmem
  rw [completePeriod_eq_of_find hfind]
  refine ⟨?_, ?_, ?_⟩
  · show ((creditLineup g.roster P.lineup
      (resolveDuration darg g.settings.periodDuration)).map (fun p => p.id)).Nodup
    rw [creditLineup_eq_map P.lineup (resolveDuration darg g.settings.periodDuration) h1,
      List.map_map]
    exact h1
  · intro per' hper'
    rcases mem_updateFirstPeriod hper' with hm | ⟨per, hper, rfl⟩
    · exact h2 per' hm
    · exact h2 per hper
  · intro p' hp'
    rw [creditLineup_eq_map P.lineup (resolveDuration darg g.settings.periodDuration) h1]
      at hp'
    rcases List.mem_map.mp hp' with ⟨p, hp, rfl⟩
    show p.totalPlayingTime + (resolveDuration darg g.settings.periodDuration)
        * ((P.lineup.countP (fun q => q.id == p.id) : Nat) : ℚ) = _
    rw [timeSum_updateFirstPeriod_complete (resolveDuration darg g.settings.periodDuration)
      hfind hnc p.id]
    rw [countP_id_eq_indicator p.id hPnd, ← h3 p hp]
    by_cases hany : P.lineup.any (fun q => q.id == p.id) = true
    · rw [hany]
      simp
    · have hany' : P.lineup.any (fun q => q.id == p.id) = false := by simpa using hany
      rw [hany']
      simp

theorem gameInv_swap (g : Game) (periodId outId inId : String) (h : GameInv g) :
    GameInv (swapPlayers g periodId outId inId).fst := by
  rcases swapPlayers_elim g periodId outId inId with ⟨heq, _⟩ |
    ⟨P, i, q, hfind, hnc, hidx, hin, hany, heq⟩
  · rw [heq]; exact h
  · obtain ⟨h1, h2, h3⟩ := h
    have hqin := @List.find?_some Player (fun p => p.id == inId && p.isPresent) q g.roster hin
    have hqid : q.id = inId := by
      have hsplit := (Bool.and_eq_true _ _).mp hqin
      simpa using hsplit.1
    rw [heq]
    refine ⟨h1, ?_, ?_⟩
    · intro per' hper'
      rcases mem_updateFirstPeriod_find hfind hper' with hm | rfl
      · exact h2 per' hm
      · show ((P.lineup.set i q).map (fun p => p.id)).Nodup
        rw [map_set_comm]
        refine nodup_set_of_not_mem (h2 P (List.mem_of_find?_eq_some hfind)) ?_
        intro hmem
        rcases List.mem_map.mp hmem with ⟨r, hr, hrq⟩
        have hall : P.lineup.any (fun p => p.id == inId) = true :=
          List.any_eq_true.mpr ⟨r, hr, by rw [hrq, hqid]; simp⟩
        simp [hall] at hany
    · intro p hp
      show p.totalPlayingTime = timeSum (updateFirstPeriod g.periods periodId
        (fun per => { per with lineup := per.lineup.set i q })) p.id
      rw [timeSum_updateFirstPeriod_incomplete _ hfind hnc (by simpa using hnc) p.id]
      exact h3 p hp

theorem gameInv_settings (g : Game) (ns : PartialGameSettings) (h : GameInv g) :
    GameInv (updateGameSettings g ns) := by
  obtain ⟨h1, h2, h3⟩ := h
  exact ⟨h1, h2, h3⟩

theorem safeStep_gameInv {g g' : Game} (hstep : SafeStep g g') (h : GameInv g) : GameInv g' := by
  cases hstep with
  | markPresent pid b => exact gameInv_markPresent g pid b h
  | addLate pid h0 => exact gameInv_addLate g pid h0 h
  | commitGenerated => exact gameInv_commit g h
  | complete pid d P hfind hnc => exact gameInv_complete g pid d P hfind hnc h
  | completeMissing pid d hf =>
    rw [completePeriod_eq_of_none hf]
    exact h
  | swap pid o i => exact gameInv_swap g pid o i h
  | settings ns => exact gameInv_settings g ns h

theorem reachableSafe_gameInv {g0 g : Game} (hreach : ReachableSafe g0 g) (h0 : GameInv g0) :
    GameInv g := by
  induction hreach with
  | refl => exact h0
  | tail hr hstep ih => exact safeStep_gameInv hstep ih

/-! ## Claim theorems -/

/-- C1: the claim says a second `completePeriod` call is an idempotent no-op that does
not re-credit playing time.  The source has no already-completed guard: completing the
same period twice with `actualDuration = 4` leaves the lineup player's
`totalPlayingTime` at `8`, not `4` — the code double-credits, contradicting the claim
(and the spec's own `PeriodAlreadyCompleted` requirement). -/
theorem completePeriod_double_credits :
    ((completePeriod gDouble "period-1" (some 4)).roster.map (fun p => p.totalPlayingTime)
      = [4])
    ∧ ((completePeriod (completePeriod gDouble "period-1" (some 4)) "period-1"
        (some 4)).roster.map (fun p => p.totalPlayingTime) = [8]) := by
  constructor
  · norm_num +decide [completePeriod, gDouble, periodOne, pOne, mkPlayer, defaultSettings,
      resolveDuration, creditLineup, updateFirstPlayer, updateFirstPeriod, List.find?]
  · norm_num +decide [completePeriod, gDouble, periodOne, pOne, mkPlayer, defaultSettings,
      resolveDuration, creditLineup, updateFirstPlayer, updateFirstPeriod, List.find?]

/-- C10: for an incomplete period found by id, `completePeriod(id, 0)` treats the
explicit zero duration exactly like an omitted one (`0` is falsy under `||`): the period
is stored completed with `actualDuration = settings.periodDuration`, and every roster
player appearing in the lineup is credited the full `settings.periodDuration`. -/
theorem completePeriod_zero_as_omitted (g : Game) (periodId : String) (P : Period)
    (hfind : g.periods.find? (fun per => per.id == periodId) = some P)
    (hnc : P.isCompleted = false)
    (hroster : (g.roster.map (fun p => p.id)).Nodup)
    (hlineup : (P.lineup.map (fun p => p.id)).Nodup) :
    (completePeriod g periodId (some 0)).periods =
      updateFirstPeriod g.periods periodId (fun per => { per with isCompleted := true, actualDuration := some g.settings.periodDuration })
    ∧ (completePeriod g periodId (some 0)).roster =
      g.roster.map (fun p => if P.lineup.any (fun q => q.id == p.id) then { p with totalPlayingTime := p.totalPlayingTime + g.settings.periodDuration } else p) := by
  have hres : resolveDuration (some 0) g.settings.periodDuration
      = g.settings.periodDuration := by
    simp [resolveDuration]
  rw [completePeriod_eq_of_find hfind]
  constructor
  · show updateFirstPeriod g.periods periodId _ = updateFirstPeriod g.periods periodId _
    simp only [hres]
  · show creditLineup g.roster P.lineup (resolveDuration (some 0) g.settings.periodDuration)
      = _
    rw [hres, creditLineup_eq_map P.lineup g.settings.periodDuration hroster]
    refine List.map_congr_left (fun p _ => ?_)
    rw [countP_id_eq_indicator p.id hlineup]
    by_cases hany : P.lineup.any (fun q => q.id == p.id) = true
    · rw [hany, if_pos rfl]
      simp
    · have hany' : P.lineup.any (fun q => q.id == p.id) = false := by simpa using hany
      rw [hany']
      simp

/-- Witness for C10 at a concrete game: completing the (incomplete) period `period-1`
of `gDouble` with an explicit duration of `0` credits the full default 4 minutes. -/
theorem completePeriod_zero_as_omitted_witness :
    (completePeriod gDouble "period-1" (some 0)).roster =
      gDouble.roster.map (fun p => if periodOne.lineup.any (fun q => q.id == p.id) then { p with totalPlayingTime := p.totalPlayingTime + gDouble.settings.periodDuration } else p) :=
  (completePeriod_zero_as_omitted gDouble "period-1" periodOne (by decide) (by decide)
    (by decide) (by decide)).2

/-- C4 counterexample: with zero present players, `getPlayingTimeReport` does not
report any explicit error condition — it silently returns the ordinary empty report
(the division by zero happens but its result flows into no returned row). -/
theorem getPlayingTimeReport_no_error_counterexample :
    (gAbsent.roster.filter (fun p => p.isPresent)).length = 0 ∧
    getPlayingTimeReport gAbsent = [] := by
  constructor
  · decide
  · norm_num +decide [getPlayingTimeReport, gAbsent, mkPlayer, defaultSettings, stableSort]

/-- C4 (amended): with zero present players `getPlayingTimeReport` returns the empty
report — no entries, hence no NaN/Infinity values reach the caller — but it raises no
explicit error condition either. -/
theorem getPlayingTimeReport_empty_of_no_present (g : Game)
    (h : g.roster.filter (fun p => p.isPresent) = []) :
    getPlayingTimeReport g = [] := by
  unfold getPlayingTimeReport
  rw [h]
  rfl

/-- Witness for the amended C4 at a concrete game with an all-absent roster. -/
theorem getPlayingTimeReport_empty_witness :
    gAbsent.roster.filter (fun p => p.isPresent) = [] ∧ getPlayingTimeReport gAbsent = [] :=
  ⟨by decide, getPlayingTimeReport_empty_of_no_present gAbsent (by decide)⟩

/-- C3 counterexample: with only 3 present players and `playersOnCourt = 5`,
`generateOptimalLineup` does not fail with an empty suggestion or an explicit error —
it returns an ordinary suggestion whose lineup holds the 3 present players. -/
theorem generateOptimalLineup_short_counterexample :
    (generateOptimalLineup gFew.roster gFew.settings gFew.periods).players.length = 3 ∧
    (generateOptimalLineup gFew.roster gFew.settings gFew.periods).players ≠ [] ∧
    gFew.settings.playersOnCourt = 5 := by
  refine ⟨by decide, by decide, by decide⟩

/-- C3 (amended): when fewer players are present than `settings.playersOnCourt`, the
strict generator returns a suggestion whose `players` list is a permutation of (exactly)
the present players — a lineup shorter than `playersOnCourt`, with no error signalled. -/
theorem generateOptimalLineup_short_of_few_present (players : List Player)
    (settings : GameSettings) (periods : List Period)
    (h : (players.filter (fun p => p.isPresent)).length < settings.playersOnCourt) :
    ((generateOptimalLineup players settings periods).players).Perm
      (players.filter (fun p => p.isPresent)) := by
  rw [generateOptimalLineup_players]
  unfold generateStrictRotationLineup
  have hlen : (stableSort
      (rotationLe (calculatePeriodCounts (players.filter (fun p => p.isPresent)) periods))
      (players.filter (fun p => p.isPresent))).length ≤ settings.playersOnCourt := by
    rw [(stableSort_perm _ _).length_eq]
    exact le_of_lt h
  refine (buildLineup_consume_all _ _ _ _ hlen).trans ?_
  simpa using stableSort_perm _ _

/-- Witness for the amended C3: on `gFew` (3 present, lineup size 5) the generated
players are a permutation of the 3 present players. -/
theorem generateOptimalLineup_short_witness :
    (gFew.roster.filter (fun p => p.isPresent)).length < gFew.settings.playersOnCourt ∧
    ((generateOptimalLineup gFew.roster gFew.settings gFew.periods).players).Perm
      (gFew.roster.filter (fun p => p.isPresent)) :=
  ⟨by decide, generateOptimalLineup_short_of_few_present gFew.roster gFew.settings
    gFew.periods (by decide)⟩

/-- C2: the strict rotation selector never skips a strictly-less-played present player:
for any two present players, if `b` ends up in the generated lineup and `a` does not,
then `a` has played at least as many completed periods as `b`.  (Lineups of completed
periods are assumed duplicate-free, as the data model requires.) -/
theorem strict_rotation_no_skip (players : List Player) (settings : GameSettings)
    (periods : List Period) (a b : Player)
    (hnodup : ∀ per ∈ periods, per.isCompleted = true →
      (per.lineup.map (fun p => p.id)).Nodup)
    (ha : a ∈ players.filter (fun p => p.isPresent))
    (hb : b ∈ (generateOptimalLineup players settings periods).players)
    (hna : a ∉ (generateOptimalLineup players settings periods).players) :
    periodsPlayedBy periods b.id ≤ periodsPlayedBy periods a.id := by
  rw [generateOptimalLineup_players] at hb hna
  unfold generateStrictRotationLineup at hb hna
  have ha' : a ∈ stableSort
      (rotationLe (calculatePeriodCounts (players.filter (fun p => p.isPresent)) periods))
      (players.filter (fun p => p.isPresent)) :=
    (stableSort_perm _ _).mem_iff.mpr ha
  have hmono := buildLineup_min_mono
    (fun p => mgetD (calculatePeriodCounts (players.filter (fun p => p.isPresent)) periods)
      p.id)
    settings.playersOnCourt []
    (stableSort
      (rotationLe (calculatePeriodCounts (players.filter (fun p => p.isPresent)) periods))
      (players.filter (fun p => p.isPresent)))
    a b ha' hna hb (by simp)
  have hbridge : ∀ x : Player,
      mgetD (calculatePeriodCounts (players.filter (fun p => p.isPresent)) periods) x.id
        = periodsPlayedBy periods x.id := by
    intro x
    rw [mgetD_calculatePeriodCounts, appearanceCount_eq_periodsPlayedBy periods x.id hnodup]
  rw [← hbridge a, ← hbridge b]
  exact hmono

/-- Witness for C2 on a concrete game: `q2` (0 completed periods) is selected over `q1`
(1 completed period), and the inequality holds. -/
theorem strict_rotation_no_skip_witness :
    qTwo ∈ (generateOptimalLineup gRotation.roster gRotation.settings
      gRotation.periods).players
    ∧ qOne ∉ (generateOptimalLineup gRotation.roster gRotation.settings
      gRotation.periods).players
    ∧ periodsPlayedBy gRotation.periods qTwo.id ≤ periodsPlayedBy gRotation.periods qOne.id :=
  ⟨by decide, by decide,
    strict_rotation_no_skip gRotation.roster gRotation.settings gRotation.periods qOne qTwo
      (by decide) (by decide) (by decide) (by decide)⟩

/-- C6: `positionBalance` equals the number of distinct non-Any positions divided by
`min 3 lineupSize`; it lies in `[0,1]`; and for a lineup of size ≥ 3 it equals 1 exactly
when Guard, Forward and Center are all represented (the Any wildcard never counts). -/
theorem positionBalance_spec (lineup : List Player) (hne : lineup ≠ []) :
    calculatePositionBalance lineup
      = ((distinctNonAny lineup : Nat) : ℚ) / (((min 3 lineup.length : Nat) : Nat) : ℚ)
    ∧ 0 ≤ calculatePositionBalance lineup
    ∧ calculatePositionBalance lineup ≤ 1
    ∧ (3 ≤ lineup.length →
        (calculatePositionBalance lineup = 1 ↔
          (Position.Guard ∈ lineup.map (fun p => p.position)
            ∧ Position.Forward ∈ lineup.map (fun p => p.position)
            ∧ Position.Center ∈ lineup.map (fun p => p.position)))) := by
  have hsubGFC : ((lineup.map (fun p => p.position)).filter
      (fun q => q != Position.Any)).toFinset ⊆
      ({Position.Guard, Position.Forward, Position.Center} : Finset Position) := by
    intro q hq
    have hq' := List.mem_toFinset.mp hq
    have hne' := List.of_mem_filter hq'
    cases q with
    | Guard => simp
    | Forward => simp
    | Center => simp
    | Any => simp at hne'
  have hcard : distinctNonAny lineup = ((lineup.map (fun p => p.position)).filter
      (fun q => q != Position.Any)).toFinset.card := by
    rw [List.card_toFinset]
    rfl
  have hd3 : distinctNonAny lineup ≤ 3 := by
    rw [hcard]
    have := Finset.card_le_card hsubGFC
    simpa using this
  have hdlen : distinctNonAny lineup ≤ lineup.length := by
    unfold distinctNonAny
    calc ((lineup.map (fun p => p.position)).filter
          (fun q => q != Position.Any)).dedup.length
        ≤ ((lineup.map (fun p => p.position)).filter (fun q => q != Position.Any)).length :=
          (List.dedup_sublist _).length_le
      _ ≤ (lineup.map (fun p => p.position)).length := (List.filter_sublist _).length_le
      _ = lineup.length := List.length_map _ _
  have hlen1 : 1 ≤ lineup.length := List.length_pos.mpr hne
  have hmin1 : 1 ≤ min 3 lineup.length := le_min (by norm_num) hlen1
  have hminpos : (0 : ℚ) < ((min 3 lineup.length : Nat) : ℚ) := by
    exact_mod_cast hmin1
  have heq : calculatePositionBalance lineup
      = ((distinctNonAny lineup : Nat) : ℚ) / (((min 3 lineup.length : Nat) : Nat) : ℚ) :=
    rfl
  refine ⟨heq, ?_, ?_, ?_⟩
  · rw [heq]
    positivity
  · rw [heq]
    rw [div_le_one hminpos]
    exact_mod_cast le_min hd3 hdlen
  · intro h3
    have hmin3 : min 3 lineup.length = 3 := min_eq_left h3
    have hiff : distinctNonAny lineup = 3 ↔
        (Position.Guard ∈ lineup.map (fun p => p.position)
          ∧ Position.Forward ∈ lineup.map (fun p => p.position)
          ∧ Position.Center ∈ lineup.map (fun p => p.position)) := by
      constructor
      · intro hd
        have hcard3 : ({Position.Guard, Position.Forward, Position.Center} :
            Finset Position).card ≤ ((lineup.map (fun p => p.position)).filter
              (fun q => q != Position.Any)).toFinset.card := by
          rw [← hcard, hd]
          decide
        have hfeq := Finset.eq_of_subset_of_card_le hsubGFC hcard3
        have hmem : ∀ q : Position, q ∈ ({Position.Guard, Position.Forward,
            Position.Center} : Finset Position) →
            q ∈ lineup.map (fun p => p.position) := by
          intro q hq
          rw [← hfeq] at hq
          exact List.mem_of_mem_filter (List.mem_toFinset.mp hq)
        exact ⟨hmem _ (by decide), hmem _ (by decide), hmem _ (by decide)⟩
      · rintro ⟨hG, hF, hC⟩
        have hsub2 : ({Position.Guard, Position.Forward, Position.Center} :
            Finset Position) ⊆ ((lineup.map (fun p => p.position)).filter
              (fun q => q != Position.Any)).toFinset := by
          intro q hq
          rw [List.mem_toFinset, List.mem_filter]
          have hq' : q = Position.Guard ∨ q = Position.Forward ∨ q = Position.Center := by
            simpa using hq
          rcases hq' with rfl | rfl | rfl
          · exact ⟨hG, by decide⟩
          · exact ⟨hF, by decide⟩
          · exact ⟨hC, by decide⟩
        have h3le : 3 ≤ distinctNonAny lineup := by
          rw [hcard]
          have := Finset.card_le_card hsub2
          simpa using this
        omega
    rw [heq, hmin3]
    constructor
    · intro h1
      refine hiff.mp ?_
      have : ((distinctNonAny lineup : Nat) : ℚ) = 3 := by
        have h30 : ((3 : Nat) : ℚ) ≠ 0 := by norm_num
        field_simp at h1
        exact_mod_cast h1
      exact_mod_cast this
    · intro hmem
      have hd := hiff.mpr hmem
      rw [hd]
      norm_num

/-- Witness for C6 on a concrete 3-player lineup covering all three positions: the
balance is exactly 1. -/
theorem positionBalance_witness :
    calculatePositionBalance balancedLineup = 1 :=
  ((positionBalance_spec balancedLineup (by decide)).2.2.2 (by decide)).mpr
    ⟨by decide, by decide, by decide⟩

theorem findIdx?_isSome_eq_any (p : α → Bool) (l : List α) :
    ∀ i, (l.findIdx? p i).isSome = l.any p := by
  induction l with
  | nil => intro i; simp [List.findIdx?_nil]
  | cons x xs ih =>
    intro i
    rw [List.findIdx?_cons]
    by_cases h : p x = true
    · simp [h]
    · have h' : p x = false := by simpa using h
      rw [if_neg h]
      simp only [List.any_cons, h', Bool.false_or]
      exact ih (i + 1)

/-- C7: with the referenced period found by id, `swapPlayers` fails (returning `false`
and leaving the game unchanged) exactly when the period is completed, or `outId` is not
in the lineup, or `inId` is not a present roster player, or `inId` is already in the
lineup; otherwise it succeeds, replacing the first `outId` entry in place by the found
present roster player, preserving the lineup's length and every other entry. -/
theorem swapPlayers_spec (g : Game) (periodId outId inId : String) (P : Period)
    (hfind : g.periods.find? (fun per => per.id == periodId) = some P) :
    ((swapPlayers g periodId outId inId).snd = true ↔
      (P.isCompleted = false
        ∧ P.lineup.any (fun p => p.id == outId) = true
        ∧ g.roster.any (fun p => p.id == inId && p.isPresent) = true
        ∧ P.lineup.any (fun p => p.id == inId) = false))
    ∧ ((swapPlayers g periodId outId inId).snd = false →
        (swapPlayers g periodId outId inId).fst = g)
    ∧ ((swapPlayers g periodId outId inId).snd = true →
        ∃ i q, P.lineup.findIdx? (fun p => p.id == outId) = some i
          ∧ g.roster.find? (fun p => p.id == inId && p.isPresent) = some q
          ∧ q.id = inId ∧ q.isPresent = true
          ∧ (swapPlayers g periodId outId inId).fst = { g with periods := updateFirstPeriod g.periods periodId (fun per => { per with lineup := per.lineup.set i q }) }
          ∧ (P.lineup.set i q).length = P.lineup.length
          ∧ ∀ j, j ≠ i → (P.lineup.set i q)[j]? = P.lineup[j]?) := by
  have hswap : swapPlayers g periodId outId inId =
      (if P.isCompleted then (g, false)
       else match P.lineup.findIdx? (fun p => p.id == outId),
           g.roster.find? (fun p => p.id == inId && p.isPresent) with
         | some i, some q =>
           if P.lineup.any (fun p => p.id == inId) then (g, false)
           else ({ g with periods := updateFirstPeriod g.periods periodId (fun per => { per with lineup := per.lineup.set i q }) }, true)
         | _, _ => (g, false)) := by
    unfold swapPlayers
    rw [hfind]
  by_cases hc : P.isCompleted = true
  · rw [if_pos hc] at hswap
    refine ⟨?_, ?_, ?_⟩
    · rw [hswap]
      constructor
      · intro hh; simp at hh
      · rintro ⟨hnc, -, -, -⟩
        rw [hc] at hnc
        cases hnc
    · intro _; rw [hswap]
    · intro htrue
      rw [hswap] at htrue
      simp at htrue
  · rw [if_neg hc] at hswap
    have hc' : P.isCompleted = false := by simpa using hc
    cases hidx : P.lineup.findIdx? (fun p => p.id == outId) with
    | none =>
      have hanyout : P.lineup.any (fun p => p.id == outId) = false := by
        rw [← findIdx?_isSome_eq_any (fun p => p.id == outId) P.lineup 0, hidx]
        rfl
      rw [hidx] at hswap
      cases hin : g.roster.find? (fun p => p.id == inId && p.isPresent) with
      | none =>
        rw [hin] at hswap
        refine ⟨?_, ?_, ?_⟩
        · rw [hswap]
          constructor
          · intro hh; simp at hh
          · rintro ⟨-, hout, -, -⟩
            rw [hanyout] at hout
            cases hout
        · intro _; rw [hswap]
        · intro htrue; rw [hswap] at htrue; simp at htrue
      | some q =>
        rw [hin] at hswap
        refine ⟨?_, ?_, ?_⟩
        · rw [hswap]
          constructor
          · intro hh; simp at hh
          · rintro ⟨-, hout, -, -⟩
            rw [hanyout] at hout
            cases hout
        · intro _; rw [hswap]
        · intro htrue; rw [hswap] at htrue; simp at htrue
    | some i =>
      have hanyout : P.lineup.any (fun p => p.id == outId) = true := by
        rw [← findIdx?_isSome_eq_any (fun p => p.id == outId) P.lineup 0, hidx]
        rfl
      rw [hidx] at hswap
      cases hin : g.roster.find? (fun p => p.id == inId && p.isPresent) with
      | none =>
        have hanyin : g.roster.any (fun p => p.id == inId && p.isPresent) = false := by
          rw [Bool.eq_false_iff]
          intro hcon
          rcases List.any_eq_true.mp hcon with ⟨x, hx, hpx⟩
          exact (List.find?_eq_none.mp hin) x hx hpx
        rw [hin] at hswap
        refine ⟨?_, ?_, ?_⟩
        · rw [hswap]
          constructor
          · intro hh; simp at hh
          · rintro ⟨-, -, hinp, -⟩
            rw [hanyin] at hinp
            cases hinp
        · intro _; rw [hswap]
        · intro htrue; rw [hswap] at htrue; simp at htrue
      | some q =>
        rw [hin] at hswap
        simp only [] at hswap
        have hq := @List.find?_some Player (fun p => p.id == inId && p.isPresent) q
          g.roster hin
        have hqsplit := (Bool.and_eq_true _ _).mp hq
        have hqid : q.id = inId := by simpa using hqsplit.1
        have hqpres : q.isPresent = true := hqsplit.2
        have hanyin : g.roster.any (fun p => p.id == inId && p.isPresent) = true :=
          List.any_eq_true.mpr ⟨q, List.mem_of_find?_eq_some hin, hq⟩
        by_cases hany : P.lineup.any (fun p => p.id == inId) = true
        · rw [if_pos hany] at hswap
          refine ⟨?_, ?_, ?_⟩
          · rw [hswap]
            constructor
            · intro hh; simp at hh
            · rintro ⟨-, -, -, hnotin⟩
              rw [hany] at hnotin
              cases hnotin
          · intro _; rw [hswap]
          · intro htrue; rw [hswap] at htrue; simp at htrue
        · have hany' : P.lineup.any (fun p => p.id == inId) = false := by simpa using hany
          rw [if_neg hany] at hswap
          refine ⟨?_, ?_, ?_⟩
          · rw [hswap]
            constructor
            · intro _
              exact ⟨hc', hanyout, hanyin, hany'⟩
            · intro _
              rfl
          · intro hfalse
            rw [hswap] at hfalse
            simp at hfalse
          · intro _
            refine ⟨i, q, rfl, rfl, hqid, hqpres, by rw [hswap], List.length_set _ _ _, ?_⟩
            intro j hj
            exact List.getElem?_set_ne (Ne.symm hj)

/-- Witness for C7 on the spec's example: lineup `[A,B,C,D,E]`, present bench player
`F`; swapping `B` out for `F` succeeds, while swapping `B` out for `A` (already in the
lineup) fails. -/
theorem swapPlayers_spec_witness :
    (swapPlayers gSwap "period-1" "B" "F").snd = true
    ∧ (swapPlayers gSwap "period-1" "B" "A").snd = false := by
  constructor
  · exact ((swapPlayers_spec gSwap "period-1" "B" "F" swapPeriod (by decide)).1).mpr
      (by refine ⟨by decide, by decide, by decide, by decide⟩)
  · have hiff := (swapPlayers_spec gSwap "period-1" "B" "A" swapPeriod (by decide)).1
    rw [Bool.eq_false_iff]
    intro hcon
    rcases hiff.mp hcon with ⟨-, -, -, hnot⟩
    have : swapPeriod.lineup.any (fun p => p.id == "A") = true := by decide
    rw [this] at hnot
    cases hnot

/-- C8: with at least one present player, the time-based fairness report contains
exactly the present players, each row carrying
`target = periodsCount * periodDuration * playersOnCourt / presentCount`,
`minutes = totalPlayingTime` and `difference = totalPlayingTime - target`, and the
report is sorted ascending by `difference` (most under target first). -/
theorem getPlayingTimeReport_spec (g : Game)
    (h : g.roster.filter (fun p => p.isPresent) ≠ []) :
    ((getPlayingTimeReport g).map (fun e => e.player)).Perm
      (g.roster.filter (fun p => p.isPresent))
    ∧ (∀ e ∈ getPlayingTimeReport g,
        e.target = (g.settings.periodsCount : ℚ) * g.settings.periodDuration
            * (g.settings.playersOnCourt : ℚ)
          / (((g.roster.filter (fun p => p.isPresent)).length : Nat) : ℚ)
        ∧ e.minutes = e.player.totalPlayingTime
        ∧ e.difference = e.player.totalPlayingTime - e.target)
    ∧ (getPlayingTimeReport g).Pairwise (fun e1 e2 => e1.difference ≤ e2.difference) := by
  let T : ℚ := (g.settings.periodsCount : ℚ) * g.settings.periodDuration
    * (g.settings.playersOnCourt : ℚ)
    / (((g.roster.filter (fun p => p.isPresent)).length : Nat) : ℚ)
  let mkRow : Player → ReportEntry := fun player =>
    { player := player
      minutes := player.totalPlayingTime
      target := T
      difference := player.totalPlayingTime - T }
  let rows : List ReportEntry := (g.roster.filter (fun p => p.isPresent)).map mkRow
  let le : ReportEntry → ReportEntry → Bool :=
    fun e1 e2 => decide (e1.difference ≤ e2.difference)
  have hrep : getPlayingTimeReport g = stableSort le rows := rfl
  refine ⟨?_, ?_, ?_⟩
  · rw [hrep]
    have hsp : (stableSort le rows).Perm rows := stableSort_perm le rows
    have h1 := hsp.map (fun e : ReportEntry => e.player)
    refine h1.trans ?_
    have h2 : rows.map (fun e : ReportEntry => e.player)
        = g.roster.filter (fun p => p.isPresent) := by
      show ((g.roster.filter (fun p => p.isPresent)).map mkRow).map
        (fun e : ReportEntry => e.player) = _
      rw [List.map_map]
      rw [show ((fun e : ReportEntry => e.player) ∘ mkRow) = id from rfl, List.map_id]
    rw [h2]
  · intro e he
    rw [hrep] at he
    have he' := (stableSort_perm le rows).mem_iff.mp he
    rcases List.mem_map.mp he' with ⟨p, hp, rfl⟩
    exact ⟨rfl, rfl, rfl⟩
  · rw [hrep]
    have hpair := pairwise_stableSort le
      (fun a b => by
        rcases le_total a.difference b.difference with hab | hba
        · exact Or.inl (decide_eq_true hab)
        · exact Or.inr (decide_eq_true hba))
      (fun a b c hab hbc =>
        decide_eq_true (le_trans (of_decide_eq_true hab) (of_decide_eq_true hbc)))
      rows
    exact hpair.imp (fun hab => of_decide_eq_true hab)

/-- Witness for C8 on `gReport` (times 4, 8, 2; target 6): the report is pairwise
sorted by difference and lists exactly the three present players. -/
theorem getPlayingTimeReport_spec_witness :
    gReport.roster.filter (fun p => p.isPresent) ≠ [] ∧
    (getPlayingTimeReport gReport).Pairwise (fun e1 e2 => e1.difference ≤ e2.difference) :=
  ⟨by decide, (getPlayingTimeReport_spec gReport (by decide)).2.2⟩

theorem find?_updateFirstPlayer {roster : List Player} {pid : String} {p : Player}
    (f : Player → Player) (hid : ∀ q, (f q).id = q.id)
    (hfind : roster.find? (fun q => q.id == pid) = some p) :
    (updateFirstPlayer roster pid f).find? (fun q => q.id == pid) = some (f p) := by
  induction roster with
  | nil => simp at hfind
  | cons q qs ih =>
    by_cases hc : (q.id == pid) = true
    · have hp : q = p := by
        rw [@List.find?_cons_of_pos Player (fun q => q.id == pid) q qs hc] at hfind
        exact Option.some.inj hfind
      subst hp
      rw [updateFirstPlayer, if_pos hc]
      have hc2 : ((f q).id == pid) = true := by rw [hid q]; exact hc
      exact @List.find?_cons_of_pos Player (fun r => r.id == pid) (f q) qs hc2
    · rw [@List.find?_cons_of_neg Player (fun q => q.id == pid) q qs hc] at hfind
      rw [updateFirstPlayer, if_neg hc]
      rw [@List.find?_cons_of_neg Player (fun r => r.id == pid) q
        (updateFirstPlayer qs pid f) hc]
      exact ih hfind

/-- C9: for a roster player and at least one completed period, `addLatePlayer` marks
the player present and sets the playing-time credit to
`0.7 * (periodDuration * playersOnCourt / presentCount) * completedPeriods`, where
`presentCount` counts present players after the player has been marked present.
(`periodDuration ≥ 0` discharges the code's `max 0 _` clamp.) -/
theorem addLatePlayer_spec (g : Game) (pid : String) (player : Player)
    (hfind : g.roster.find? (fun p => p.id == pid) = some player)
    (hcomp : (g.periods.filter (fun per => per.isCompleted)).length ≠ 0)
    (hpd : 0 ≤ g.settings.periodDuration) :
    (addLatePlayer g pid).roster.find? (fun p => p.id == pid) =
      some { player with isPresent := true, totalPlayingTime := (7 / 10) * (g.settings.periodDuration * (g.settings.playersOnCourt : ℚ) / ((((updateFirstPlayer g.roster pid (fun r => { r with isPresent := true })).filter (fun r => r.isPresent)).length : Nat) : ℚ)) * (((g.periods.filter (fun per => per.isCompleted)).length : Nat) : ℚ) } := by
  rw [addLatePlayer_eq_of_completed hfind hcomp]
  have h1 := find?_updateFirstPlayer (fun r : Player => { r with isPresent := true })
    (fun _ => rfl) hfind
  have h2 := find?_updateFirstPlayer
    (fun q : Player => { q with totalPlayingTime := max 0 (g.settings.periodDuration * (g.settings.playersOnCourt : ℚ) / (((updateFirstPlayer g.roster pid (fun r => { r with isPresent := true })).filter (fun r => r.isPresent)).length : ℚ) * (((g.periods.filter (fun per => per.isCompleted)).length : Nat) : ℚ) * (7 / 10)) })
    (fun _ => rfl) h1
  rw [h2]
  have hx : (0 : ℚ) ≤ g.settings.periodDuration * (g.settings.playersOnCourt : ℚ) / (((updateFirstPlayer g.roster pid (fun r => { r with isPresent := true })).filter (fun r => r.isPresent)).length : ℚ) * (((g.periods.filter (fun per => per.isCompleted)).length : Nat) : ℚ) * (7 / 10) := by
    have h01 : (0 : ℚ) ≤ g.settings.periodDuration * (g.settings.playersOnCourt : ℚ) :=
      mul_nonneg hpd (Nat.cast_nonneg _)
    have h02 : (0 : ℚ) ≤ g.settings.periodDuration * (g.settings.playersOnCourt : ℚ) / (((updateFirstPlayer g.roster pid (fun r => { r with isPresent := true })).filter (fun r => r.isPresent)).length : ℚ) :=
      div_nonneg h01 (Nat.cast_nonneg _)
    have h03 := mul_nonneg h02 (Nat.cast_nonneg
      ((g.periods.filter (fun per => per.isCompleted)).length))
    exact mul_nonneg h03 (by norm_num)
  rw [max_eq_right hx]
  congr 1
  cases player with
  | mk id name jersey skill pos pres t =>
    simp only [Player.mk.injEq, and_true, true_and]
    ring

/-- Witness for C9 on `gLateArrival` (one completed 4-minute period, one player on
court): adding `B` late marks them present with credit
`0.7 * (4 * 1 / 2) * 1 = 7/5`. -/
theorem addLatePlayer_spec_witness :
    (addLatePlayer gLateArrival "B").roster.find? (fun p => p.id == "B") =
      some { mkPlayer "B" 2 4 Position.Forward false 0 with isPresent := true, totalPlayingTime := (7 / 10) * (gLateArrival.settings.periodDuration * (gLateArrival.settings.playersOnCourt : ℚ) / ((((updateFirstPlayer gLateArrival.roster "B" (fun r => { r with isPresent := true })).filter (fun r => r.isPresent)).length : Nat) : ℚ)) * (((gLateArrival.periods.filter (fun per => per.isCompleted)).length : Nat) : ℚ) } :=
  addLatePlayer_spec gLateArrival "B" (mkPlayer "B" 2 4 Position.Forward false 0)
    (by decide) (by decide) (by decide)

/-- C5 (amended): from an initial game (no periods, all playing times zero,
duplicate-free roster ids), every state reachable by the coordinator operations —
restricted so that `completePeriod` only targets a period that is not yet completed
and `addLatePlayer` is only invoked while no period has been completed — satisfies the
invariant: each roster player's `totalPlayingTime` equals the sum of `actualDuration`
over the completed periods whose lineup contains that player. -/
theorem totalPlayingTime_invariant (g0 g : Game)
    (h0p : g0.periods = [])
    (h0t : ∀ p ∈ g0.roster, p.totalPlayingTime = 0)
    (h0n : (g0.roster.map (fun p => p.id)).Nodup)
    (hreach : ReachableSafe g0 g) :
    ∀ p ∈ g.roster, p.totalPlayingTime = timeSum g.periods p.id := by
  have h0 : GameInv g0 := by
    refine ⟨h0n, ?_, ?_⟩
    · intro per hper
      rw [h0p] at hper
      cases hper
    · intro p hp
      rw [h0p, h0t p hp]
      rfl
  exact (reachableSafe_gameInv hreach h0).2.2

/-- Witness for the amended C5: after committing the generated period on `gLateInit`
and completing it (a safe reachable state), every roster player's time equals the sum
of completed-period durations containing them. -/
theorem totalPlayingTime_invariant_witness :
    (mkPlayer "B" 2 4 Position.Forward false 0).totalPlayingTime =
      timeSum (completePeriod (startGeneratedPeriod gLateInit) "period-1" none).periods
        (mkPlayer "B" 2 4 Position.Forward false 0).id :=
  totalPlayingTime_invariant gLateInit
    (completePeriod (startGeneratedPeriod gLateInit) "period-1" none) rfl (by decide)
    (by decide)
    (ReachableSafe.tail
      (ReachableSafe.tail (ReachableSafe.refl gLateInit) (SafeStep.commitGenerated gLateInit))
      (SafeStep.complete (startGeneratedPeriod gLateInit) "period-1" none
        { id := "period-1", number := 1, lineup := [mkPlayer "A" 1 3 Position.Guard true 0], isCompleted := false, actualDuration := none }
        (by decide) (by decide)))
    (mkPlayer "B" 2 4 Position.Forward false 0) (by decide)

/-- C5 counterexample: starting from `gLateInit` (an initial game: no periods, all
times zero) and applying the coordinator operations commit-generated-period,
`completePeriod`, then `addLatePlayer "B"`, roster player `B` ends with
`totalPlayingTime = 7/5` although the sum of completed-period durations containing `B`
is `0` — the invariant as claimed fails once `addLatePlayer`'s catch-up credit fires. -/
theorem totalPlayingTime_invariant_counterexample :
    gLateInit.periods = []
    ∧ (∀ p ∈ gLateInit.roster, p.totalPlayingTime = 0)
    ∧ gLateFinal.roster.map (fun p => (p.id, p.totalPlayingTime)) = [("A", 4), ("B", 7 / 5)]
    ∧ timeSum gLateFinal.periods "B" = 0
    ∧ (7 / 5 : ℚ) ≠ 0 := by
  have step1 : startGeneratedPeriod gLateInit =
      { gLateInit with periods := [{ id := "period-1", number := 1, lineup := [mkPlayer "A" 1 3 Position.Guard true 0], isCompleted := false, actualDuration := none }] } := by
    decide
  have step2 : completePeriod (startGeneratedPeriod gLateInit) "period-1" none =
      { gLateInit with roster := [mkPlayer "A" 1 3 Position.Guard true 4, mkPlayer "B" 2 4 Position.Forward false 0], periods := [{ id := "period-1", number := 1, lineup := [mkPlayer "A" 1 3 Position.Guard true 0], isCompleted := true, actualDuration := some 4 }] } := by
    rw [step1]
    norm_num +decide [completePeriod, resolveDuration, creditLineup, updateFirstPlayer,
      updateFirstPeriod, List.find?, gLateInit, mkPlayer]
  have step3 : gLateFinal =
      { gLateInit with roster := [mkPlayer "A" 1 3 Position.Guard true 4, mkPlayer "B" 2 4 Position.Forward true (7 / 5)], periods := [{ id := "period-1", number := 1, lineup := [mkPlayer "A" 1 3 Position.Guard true 0], isCompleted := true, actualDuration := some 4 }] } := by
    show addLatePlayer (completePeriod (startGeneratedPeriod gLateInit) "period-1" none) "B"
      = _
    rw [step2]
    have hAB : ("A" == "B") = false := by decide
    have hBB : ("B" == "B") = true := by decide
    norm_num +decide [addLatePlayer, updateFirstPlayer, List.find?, max_def, gLateInit,
      mkPlayer, hAB, hBB]
  refine ⟨rfl, ?_, ?_, ?_, by norm_num⟩
  · intro p hp
    have hp' : p = mkPlayer "A" 1 3 Position.Guard true 0
        ∨ p = mkPlayer "B" 2 4 Position.Forward false 0 := by
      simpa [gLateInit] using hp
    rcases hp' with rfl | rfl <;> rfl
  · rw [step3]
    norm_num +decide [gLateInit, mkPlayer]
  · rw [step3]
    have hAB : ("A" == "B") = false := by decide
    norm_num +decide [timeSum, gLateInit, mkPlayer, hAB]

end HouseLeague
